import Mathlib

/-!
Verification development for the CLI-LLM Grafana panel plugin.

This file gives a shallow embedding, in Lean 4, of the plugin's core data
engine and control loop, translated from the TypeScript sources:

* `src/utils/dataUtils.ts`       — field identity resolution, timestamp keys
* `src/services/dataProcessor.ts`— window selection, incremental diffing,
                                   multi-series recombination
* `src/services/apiService.ts`   — the response forwarder
  (`forwardResponseToEndpoint`)
* `src/components/LLMPanel.tsx`  — manual submit and the auto-update effect

JavaScript objects are embedded as association lists with in-place
update-or-append assignment (`rset`), which matches JS object key semantics
(insertion order preserved, assignment overwrites in place).  JS `null` and
`undefined` are merged into one scalar `JsVal.null` (the code treats them
identically everywhere it checks).  Machine numbers are embedded as `Int`
(all timestamp arithmetic in the source is integer millisecond arithmetic).
External library calls (`dateTime(...).format`, `JSON.parse`) are modelled
by executable Lean functions noted at their definitions.
-/

/-- Scalar value of a JS data cell: `null` merges JS `null` and `undefined`
(the source checks `value !== null && value !== undefined` and never
distinguishes them otherwise). -/
inductive JsVal where
  | null
  | num (n : Int)
  | str (s : String)
deriving Repr, DecidableEq

/-- JS object embedding: association list in key insertion order. -/
abbrev Record (α : Type) : Type := List (String × α)

/-- Key lookup in a JS object (`m[k]`, yielding `undefined` as `none`). -/
def rlookup {α : Type} (m : Record α) (k : String) : Option α :=
  match m with
  | [] => none
  | (k', v) :: t => if k' = k then some v else rlookup t k

/-- JS object assignment `m[k] = v`: overwrite in place if the key exists,
otherwise append (insertion order semantics of JS objects). -/
def rset {α : Type} (m : Record α) (k : String) (v : α) : Record α :=
  match m with
  | [] => [(k, v)]
  | (k', v') :: t => if k' = k then (k, v) :: t else (k', v') :: rset t k v

/-- The JS idiom `m[k] || defaultObj` for object-valued entries. -/
def rget {α : Type} (m : Record (Record α)) (k : String) : Record α :=
  match rlookup m k with
  | some e => e
  | none => []

/-- Truthiness of an optional JS string (`undefined` and `""` are falsy). -/
def truthyOS : Option String → Bool
  | some s => s ≠ ""
  | none => false

/-- JS `a || b` on optional strings: keep `a` when truthy, else `b`. -/
def jsOrS : Option String → Option String → Option String
  | some s, b => if s = "" then b else some s
  | none, b => b

/-- JS `a || d` with a plain string default. -/
def jsOrSD (a : Option String) (d : String) : String :=
  match a with
  | some s => if s = "" then d else s
  | none => d

/- ------------------------------------------------------------------
Timestamp formatting.  The source calls the external Grafana/moment
library: `dateTime(timestamp).format('YYYY-MM-DD HH:mm:ss')`
(`src/utils/dataUtils.ts`, `formatTimestamp`).  We model it as UTC
calendar formatting of the millisecond epoch value at second resolution;
only its use as a batch key (second-resolution, deterministic) matters
to the claims.  Calendar conversion is the standard civil-from-days
algorithm. ------------------------------------------------------------------ -/

/-- Two-digit zero padding used by the `MM`, `DD`, `HH`, `mm`, `ss` fields. -/
def pad2 (n : Int) : String := if n < 10 then "0" ++ toString n else toString n

/-- Gregorian date from days since the Unix epoch (civil-from-days). -/
def civilFromDays (z0 : Int) : Int × Int × Int :=
  let z := z0 + 719468
  let era : Int := Int.ediv z 146097
  let doe := z - era * 146097
  let yoe := Int.ediv (doe - Int.ediv doe 1460 + Int.ediv doe 36524 - Int.ediv doe 146096) 365
  let y := yoe + era * 400
  let doy := doe - (365 * yoe + Int.ediv yoe 4 - Int.ediv yoe 100)
  let mp := Int.ediv (5 * doy + 2) 153
  let d := doy - Int.ediv (153 * mp + 2) 5 + 1
  let m := mp + (if mp < 10 then 3 else -9)
  (y + (if m ≤ 2 then 1 else 0), m, d)

/-- Models `dateTime(timestamp).format('YYYY-MM-DD HH:mm:ss')` from
`src/utils/dataUtils.ts` (external library call; rendered here in UTC). -/
def formatTimestamp (ts : Int) : String :=
  let secs := Int.ediv ts 1000
  let days := Int.ediv secs 86400
  let sod := Int.emod secs 86400
  let ymd := civilFromDays days
  let h := Int.ediv sod 3600
  let mi := Int.ediv (Int.emod sod 3600) 60
  let s2 := Int.emod sod 60
  toString ymd.1 ++ "-" ++ pad2 ymd.2.1 ++ "-" ++ pad2 ymd.2.2 ++ " " ++
    pad2 h ++ ":" ++ pad2 mi ++ ":" ++ pad2 s2

/- ------------------------------------------------------------------
Field identity (src/utils/dataUtils.ts). ------------------------------------------------------------------ -/

/-- First index at which `pat` occurs as a contiguous sublist of `hay`. -/
def findSubIdx (pat : List Char) : List Char → Option Nat
  | [] => if pat = [] then some 0 else none
  | c :: t =>
    if pat.isPrefixOf (c :: t) then some 0
    else (findSubIdx pat t).map (· + 1)

/-- Leading/trailing-whitespace strip on char lists (JS `String.trim`). -/
def trimLeftChars : List Char → List Char
  | [] => []
  | c :: t => if c = ' ' ∨ c = '\t' ∨ c = '\n' ∨ c = '\r' then trimLeftChars t else c :: t

/-- Models JS `s.trim()`. -/
def jsTrim (s : String) : String :=
  String.mk ((trimLeftChars (trimLeftChars s.data.reverse).reverse))

/-- The regex match `fieldName.match(/value_(.*?)_properties_value/)` from
`extractMeasurementName`: the leftmost occurrence of `value_` that is
followed by `_properties_value`, with the lazily-minimal capture between
them.  Returns the capture group. -/
def measurementCapture (s : String) : Option String :=
  let cs := s.data
  let op := "value_".data
  match findSubIdx op cs with
  | none => none
  | some i =>
    let rest := cs.drop (i + op.length)
    match findSubIdx "_properties_value".data rest with
    | none => none
    | some j => some (String.mk (rest.take j))

/-- Models `s.replace(/^value_/, '')`. -/
def dropValueHead (s : String) : String :=
  if "value_".data.isPrefixOf s.data then String.mk (s.data.drop 6) else s

/-- Models `s.replace(/_properties_value$/, '')`. -/
def dropPropsTail (s : String) : String :=
  if "_properties_value".data.reverse.isPrefixOf s.data.reverse then
    String.mk (s.data.reverse.drop 17).reverse
  else s

/-- A Grafana data field as the code reads it: name, type tag, labels,
optional display name from the data source, and the cell values. -/
structure GField where
  name : String
  ftype : String
  labels : Record String
  displayNameFromDS : Option String
  values : List JsVal
deriving DecidableEq

/-- A Grafana data frame (one series): its name (`series.name || ''`)
plus its fields. -/
structure GFrame where
  name : String
  fields : List GField
deriving DecidableEq

/-- The fallback chain of `extractMeasurementName` when the regex capture
is falsy: a truthy display name without a brace, else the field name
unless it is the `_value` sentinel, else the initial "Value". -/
def measurementNameFallback (fieldName : String) (displayName : Option String) : String :=
  match displayName with
  | some d =>
    if d ≠ "" ∧ ¬ d.data.contains (Char.ofNat 123) then d
    else if fieldName ≠ "_value" then fieldName else "Value"
  | none => if fieldName ≠ "_value" then fieldName else "Value"

/-- Embeds `extractMeasurementName` (src/utils/dataUtils.ts): regex
capture of the `value_..._properties_value` wrapper if truthy, else the
fallback chain; then strip the fixed head/tail patterns and trim. -/
def extractMeasurementName (field : GField) : String :=
  let fieldName := field.name
  let displayName := field.displayNameFromDS
  let base :=
    match measurementCapture fieldName with
    | some c => if c ≠ "" then c else measurementNameFallback fieldName displayName
    | none => measurementNameFallback fieldName displayName
  jsTrim (dropPropsTail (dropValueHead base))

/-- Embeds `generateUniqueFieldId` (src/utils/dataUtils.ts): measurement
name suffixed with the `thingId` (or legacy `tag_thingId`) label when
present; the series name when the measurement resolved to the "Value"
sentinel and a distinct series name exists; with final fallbacks to the
raw field name and the constant. -/
def generateUniqueFieldId (field : GField) (seriesName : String) : String :=
  let baseMeasurementName := extractMeasurementName field
  let thingIdLabel := jsOrS (rlookup field.labels "thingId") (rlookup field.labels "tag_thingId")
  let fieldName := field.name
  let uniqueId :=
    if truthyOS thingIdLabel then
      baseMeasurementName ++ "_" ++ (thingIdLabel.getD "")
    else if ¬ truthyOS thingIdLabel ∧ seriesName ≠ "" ∧ seriesName ≠ fieldName ∧
        baseMeasurementName = "Value" then
      seriesName
    else baseMeasurementName
  jsOrSD (jsOrS (some uniqueId) (some fieldName)) "unknown_field"

/- ------------------------------------------------------------------
DataProcessor (src/services/dataProcessor.ts). ------------------------------------------------------------------ -/

/-- Numeric reading of a time cell (`timeColumn.values.toArray()` entries;
time columns carry numbers in every code path the plugin handles). -/
def jsNum : JsVal → Int
  | JsVal.num n => n
  | _ => 0

/-- The JS loop `for (i of times.length) ... values[i]`: reading past the
end of `values` yields `undefined`, embedded as `JsVal.null`. -/
def zipPad : List Int → List JsVal → List (Int × JsVal)
  | [], _ => []
  | t :: ts, [] => (t, JsVal.null) :: zipPad ts []
  | t :: ts, v :: vs => (t, v) :: zipPad ts vs

/-- The running-maximum loop pattern
`if (latest === null || t > latest) latest = t` over a list of times. -/
def maxLoop : List Int → Option Int → Option Int
  | [], acc => acc
  | t :: rest, acc =>
    maxLoop rest (match acc with
      | none => some t
      | some m => if t > m then some t else some m)

/-- The watermark filter `sinceTimestamp === null || timestamp > sinceTimestamp`. -/
def passesSince (since : Option Int) (t : Int) : Bool :=
  match since with
  | none => true
  | some w => t > w

/-- The sliding-floor filter `intervalStart === null || timestamp >= intervalStart`. -/
def passesIntervalStart (istart : Option Int) (t : Int) : Bool :=
  match istart with
  | none => true
  | some s0 => t ≥ s0

/-- One combined batch: formatted timestamp → (field id → value). -/
abbrev Batch : Type := Record (Record JsVal)

/-- The filtered collection loop of `serializeDataForMultiplePanels`
(lines 52–65): keep samples passing the `since` and `intervalStart`
filters with a non-null value, inserting
`data[formatTimestamp(t)][uniqueId] = value`. -/
def serializeLoop (uniqueId : String) (since istart : Option Int) :
    List (Int × JsVal) → Batch → Batch
  | [], d => d
  | (t, v) :: rest, d =>
    if passesSince since t ∧ passesIntervalStart istart t ∧ v ≠ JsVal.null then
      let ft := formatTimestamp t
      serializeLoop uniqueId since istart rest (rset d ft (rset (rget d ft) uniqueId v))
    else serializeLoop uniqueId since istart rest d

/-- Models `Array.findIndex` over the time column (`undefined`/`-1`
becomes `none`). -/
def findIdxJS (p : Int → Bool) : List Int → Option Nat
  | [] => none
  | t :: rest => if p t then some 0 else (findIdxJS p rest).map (· + 1)

/-- The `[startIndex, finalIndex]` sample segment of the resolved window:
`startIndex` is the first index with `time >= from` (absent start means
no window), `endIndex` the first index with `time > to`, extended to the
end of the series when absent. -/
def windowSeg (times : List Int) (fromV toV : Int) : List Int :=
  match findIdxJS (fun t => fromV ≤ t) times with
  | none => []
  | some start =>
    let stop := (findIdxJS (fun t => toV < t) times).getD times.length
    (times.drop start).take (stop - start)

/-- Index-aligned `(time, value)` pairs of the window segment. -/
def windowSegPairs (times : List Int) (values : List JsVal) (fromV toV : Int) :
    List (Int × JsVal) :=
  match findIdxJS (fun t => fromV ≤ t) times with
  | none => []
  | some start =>
    let stop := (findIdxJS (fun t => toV < t) times).getD times.length
    ((zipPad times values).drop start).take (stop - start)

/-- The `intervalStart` sliding floor (lines 45–48): only when a truthy
`autoPromptInterval`, a non-null watermark and a non-null window maximum
are all present. -/
def intervalStartOf (autoPromptInterval since latest : Option Int) : Option Int :=
  match autoPromptInterval, since, latest with
  | some a, some _, some l => if a ≠ 0 then some (l - a * 1000) else none
  | _, _, _ => none

/-- Embeds `DataProcessor.serializeDataForMultiplePanels`: locate the time
column and the value field named `uniqueId`, resolve the `[from, to]`
index window, take the window's running maximum timestamp, then collect
the filtered samples into a timestamp-keyed batch. -/
def serializeDataForMultiplePanels (series : GFrame) (uniqueId : String)
    (fromV toV : Int) (sinceTimestamp autoPromptInterval : Option Int) :
    Batch × Option Int :=
  match series.fields.find? (fun f => f.ftype = "time") with
  | none => ([], none)
  | some timeColumn =>
    match series.fields.find? (fun f => f.name = uniqueId) with
    | none => ([], none)
    | some valueField =>
      let times := timeColumn.values.map jsNum
      match findIdxJS (fun t => fromV ≤ t) times with
      | none => ([], none)
      | some _ =>
        let latestTimestamp := maxLoop (windowSeg times fromV toV) none
        let istart := intervalStartOf autoPromptInterval sinceTimestamp latestTimestamp
        let data := serializeLoop uniqueId sinceTimestamp istart
          (windowSegPairs times valueField.values fromV toV) []
        (data, latestTimestamp)

/-- JS `Object.assign(dst, src)`: fold the source entries into `dst`. -/
def jsAssign (dst src : Record JsVal) : Record JsVal :=
  match src with
  | [] => dst
  | (k, v) :: rest => jsAssign (rset dst k v) rest

/-- The inner merge of `restructurePanelData`: for each timestamp entry of
one per-field result, `combinedData[ts] = combinedData[ts] || {}` then
`Object.assign(combinedData[ts], values)`. -/
def mergeSeriesData (comb : Batch) : Batch → Batch
  | [] => comb
  | (ts, vals) :: rest => mergeSeriesData (rset comb ts (jsAssign (rget comb ts) vals)) rest

/-- Merge a list of per-field results into the combined batch. -/
def mergeSeriesDataList (comb : Batch) : List Batch → Batch
  | [] => comb
  | sd :: rest => mergeSeriesDataList (mergeSeriesData comb sd) rest

/-- The outer fold of `restructurePanelData` over the stored per-field
entries, threading the combined batch. -/
def restructureFold (comb : Batch) : Record (List Batch) → Batch
  | [] => comb
  | (_, arr) :: rest => restructureFold (mergeSeriesDataList comb arr) rest

/-- Embeds `DataProcessor.restructurePanelData`: fold every stored
per-field partial batch into one combined timestamp-keyed batch. -/
def restructurePanelData (allFieldsData : Record (List Batch)) : Batch :=
  restructureFold [] allFieldsData

/-- The per-field sample loop of `processIncrementalData` (lines 119–129):
samples strictly newer than the watermark are inserted under their
formatted timestamp, while the shared latest-included timestamp is
advanced. -/
def incrSeriesLoop (uniqueId : String) (since : Option Int) :
    List (Int × JsVal) → Batch → Option Int → Batch × Option Int
  | [], sd, latest => (sd, latest)
  | (t, v) :: rest, sd, latest =>
    if passesSince since t then
      let ft := formatTimestamp t
      let sd' := rset sd ft (rset (rget sd ft) uniqueId v)
      let latest' :=
        match latest with
        | none => some t
        | some m => if t > m then some t else some m
      incrSeriesLoop uniqueId since rest sd' latest'
    else incrSeriesLoop uniqueId since rest sd latest

/-- The storage pattern `if (!all[uid]) all[uid] = []; all[uid].push(sd)`. -/
def pushField (all : Record (List Batch)) (uid : String) (sd : Batch) :
    Record (List Batch) :=
  rset all uid ((match rlookup all uid with | some a => a | none => []) ++ [sd])

/-- The value-field loop of `processIncrementalData`: resolve each field's
identifier, process selected fields, store non-empty per-field results
and thread the latest included timestamp. -/
def procFields (seriesName : String) (timeColumn : GField) (ids : List String)
    (since : Option Int) :
    List GField → Record (List Batch) × Option Int → Record (List Batch) × Option Int
  | [], acc => acc
  | vf :: rest, acc =>
    let uid := generateUniqueFieldId vf seriesName
    if ids.contains uid then
      let r := incrSeriesLoop uid since (zipPad (timeColumn.values.map jsNum) vf.values) [] acc.2
      let all' := if r.1 ≠ [] then pushField acc.1 uid r.1 else acc.1
      procFields seriesName timeColumn ids since rest (all', r.2)
    else procFields seriesName timeColumn ids since rest acc

/-- The series loop of `processIncrementalData`: series without a time
column are skipped. -/
def procFrames (ids : List String) (since : Option Int) :
    List GFrame → Record (List Batch) × Option Int → Record (List Batch) × Option Int
  | [], acc => acc
  | s :: rest, acc =>
    match s.fields.find? (fun f => f.ftype = "time") with
    | none => procFrames ids since rest acc
    | some tc =>
      procFrames ids since rest
        (procFields s.name tc ids since (s.fields.filter (fun f => f.ftype ≠ "time")) acc)

/-- Result of the incremental diff. -/
structure IncrementalDataResult where
  incrementalData : Batch
  latestTimestampInBatch : Option Int
deriving DecidableEq

/-- Embeds `DataProcessor.processIncrementalData`: with the frames of the
upstream data (`none` models an absent `data.series`), the selected
field identifiers and the watermark, produce the recombined strict-delta
batch and the latest included timestamp. -/
def processIncrementalData (data : Option (List GFrame)) (selectedFieldIds : List String)
    (sinceTimestamp : Option Int) : IncrementalDataResult :=
  match data with
  | none => ⟨[], none⟩
  | some series =>
    if series.isEmpty then ⟨[], none⟩
    else
      let acc := procFrames selectedFieldIds sinceTimestamp series ([], none)
      ⟨restructurePanelData acc.1, acc.2⟩

/-- Models JS `parseInt` on an already-trimmed candidate: optional sign
followed by leading digits; `none` models `NaN`. -/
def parseIntJS (s : String) : Option Int :=
  let digitsVal : List Char → Option Int := fun cs =>
    let ds := cs.takeWhile Char.isDigit
    if ds = [] then none
    else some (Int.ofNat (ds.foldl (fun a c => a * 10 + (c.toNat - 48)) 0))
  match trimLeftChars s.data with
  | '-' :: rest => (digitsVal rest).map Int.neg
  | '+' :: rest => digitsVal rest
  | rest => digitsVal rest

/-- The time-range resolution of `logPanelData` (lines 167–191): relative
ranges are `now` minus a parsed `<n><unit>` duration, absolute ranges
pass through, dashboard ranges use the ambient range. -/
def resolveTimeRange (selectedTimeRangeType : String) (timeRange : Int × Int)
    (relativeTime : String) (absoluteTimeRange : Int × Int) (now : Int) : Int × Int :=
  if selectedTimeRangeType = "relative" then
    let num := (parseIntJS (String.mk relativeTime.data.dropLast)).getD 0
    let unitMs : Int :=
      match relativeTime.data.getLast? with
      | some 's' => 1000
      | some 'm' => 60000
      | some 'h' => 3600000
      | _ => 86400000
    (now - num * unitMs, now)
  else if selectedTimeRangeType = "absolute" then absoluteTimeRange
  else timeRange

/-- Result of `logPanelData`. -/
structure LogPanelResult where
  data : Batch
  timeRange : Int × Int
  latestTimestamp : Option Int
deriving DecidableEq

/-- The value-field loop of `logPanelData` (lines 196–222): serialize each
selected field over the resolved window, store non-empty per-field
results and keep the running maximum of the per-field latest
timestamps. -/
def logFields (seriesFrame : GFrame) (ids : List String) (fromV toV : Int)
    (since ap : Option Int) :
    List GField → Record (List Batch) × Option Int → Record (List Batch) × Option Int
  | [], acc => acc
  | vf :: rest, acc =>
    let uid := generateUniqueFieldId vf seriesFrame.name
    if uid ≠ "" ∧ ids.contains uid then
      let r := serializeDataForMultiplePanels seriesFrame uid fromV toV since ap
      let all' := if r.1 ≠ [] then pushField acc.1 uid r.1 else acc.1
      let latest' :=
        match r.2 with
        | none => acc.2
        | some st =>
          match acc.2 with
          | none => some st
          | some l => if st > l then some st else some l
      logFields seriesFrame ids fromV toV since ap rest (all', latest')
    else logFields seriesFrame ids fromV toV since ap rest acc

/-- The series loop of `logPanelData`. -/
def logFrames (ids : List String) (fromV toV : Int) (since ap : Option Int) :
    List GFrame → Record (List Batch) × Option Int → Record (List Batch) × Option Int
  | [], acc => acc
  | s :: rest, acc =>
    logFrames ids fromV toV since ap rest
      (logFields s ids fromV toV since ap (s.fields.filter (fun f => f.ftype ≠ "time")) acc)

/-- Embeds `DataProcessor.logPanelData`: `none` when the series are absent,
data inclusion is disabled or no field is selected; otherwise the
combined windowed batch, the resolved range and the window maximum. -/
def logPanelData (data : Option (List GFrame)) (includePanel : Bool)
    (selectedFieldIds : List String) (timeRange : Int × Int)
    (selectedTimeRangeType : String) (relativeTime : String)
    (absoluteTimeRange : Int × Int) (now : Int)
    (sinceTimestamp autoPromptInterval : Option Int) : Option LogPanelResult :=
  match data with
  | none => none
  | some series =>
    if ¬ includePanel ∨ selectedFieldIds = [] then none
    else
      let range := resolveTimeRange selectedTimeRangeType timeRange relativeTime
        absoluteTimeRange now
      let acc := logFrames selectedFieldIds range.1 range.2 sinceTimestamp
        autoPromptInterval series ([], none)
      some ⟨restructurePanelData acc.1, range, acc.2⟩

/- ------------------------------------------------------------------
Response forwarder (src/services/apiService.ts,
`forwardResponseToEndpoint`).  `JSON.parse` / `JSON.stringify` are the
JS built-ins; they are modelled by the executable parser and printer
below over a standard JSON value type. ------------------------------------------------------------------ -/

/-- JSON value.  Numbers keep their validated source lexeme (no claim in
this development inspects a number's magnitude beyond zero-ness, and the
lexeme is what `JSON.stringify` re-emits for the integers at hand). -/
inductive Json where
  | null
  | bool (b : Bool)
  | num (lit : String)
  | str (s : String)
  | arr (elems : List Json)
  | obj (fields : List (String × Json))
deriving Repr

/-- JSON whitespace skipping. -/
def skipWs : List Char → List Char
  | [] => []
  | c :: rest => if c = ' ' ∨ c = '\t' ∨ c = '\n' ∨ c = '\r' then skipWs rest else c :: rest

/-- Hex digit value for `\u` escapes. -/
def hexVal (c : Char) : Option Nat :=
  if '0' ≤ c ∧ c ≤ '9' then some (c.toNat - 48)
  else if 'a' ≤ c ∧ c ≤ 'f' then some (c.toNat - 87)
  else if 'A' ≤ c ∧ c ≤ 'F' then some (c.toNat - 55)
  else none

/-- JSON string body parser (after the opening quote), with the escape
grammar of `JSON.parse`; raw control characters are rejected. -/
def parseJStringAux (fuel : Nat) (cs : List Char) : Option (List Char × List Char) :=
  match fuel with
  | 0 => none
  | fuel + 1 =>
    match cs with
    | [] => none
    | '"' :: rest => some ([], rest)
    | '\\' :: esc =>
      match esc with
      | 'u' :: h1 :: h2 :: h3 :: h4 :: rest =>
        match hexVal h1, hexVal h2, hexVal h3, hexVal h4 with
        | some a, some b, some c, some d =>
          (parseJStringAux fuel rest).map
            (fun r => (Char.ofNat (((a * 16 + b) * 16 + c) * 16 + d) :: r.1, r.2))
        | _, _, _, _ => none
      | e :: rest =>
        let ec : Option Char :=
          if e = '"' then some '"'
          else if e = '\\' then some '\\'
          else if e = '/' then some '/'
          else if e = 'b' then some (Char.ofNat 8)
          else if e = 'f' then some (Char.ofNat 12)
          else if e = 'n' then some '\n'
          else if e = 'r' then some '\r'
          else if e = 't' then some '\t'
          else none
        match ec with
        | some c => (parseJStringAux fuel rest).map (fun r => (c :: r.1, r.2))
        | none => none
      | [] => none
    | c :: rest =>
      if c.toNat < 32 then none
      else (parseJStringAux fuel rest).map (fun r => (c :: r.1, r.2))

/-- JSON number lexeme: `-? (0 | [1-9][0-9]*) frac? exp?`; returns the
lexeme and the remaining input. -/
def parseJNumber (cs : List Char) : Option (List Char × List Char) :=
  let digitsOf : List Char → List Char × List Char := fun l =>
    (l.takeWhile Char.isDigit, l.dropWhile Char.isDigit)
  let intPart : List Char → Option (List Char × List Char) := fun l =>
    match l with
    | '0' :: rest => some (['0'], rest)
    | c :: rest =>
      if c.isDigit then
        let d := digitsOf rest
        some (c :: d.1, d.2)
      else none
    | [] => none
  let fracPart : List Char → List Char × List Char := fun l =>
    match l with
    | '.' :: rest =>
      let d := digitsOf rest
      if d.1 = [] then ([], l) else ('.' :: d.1, d.2)
    | _ => ([], l)
  let expPart : List Char → Option (List Char × List Char) := fun l =>
    match l with
    | e :: rest =>
      if e = 'e' ∨ e = 'E' then
        let signed :=
          match rest with
          | s :: r2 => if s = '+' ∨ s = '-' then ([s], r2) else ([], rest)
          | [] => ([], rest)
        let d := digitsOf signed.2
        if d.1 = [] then none else some (e :: signed.1 ++ d.1, d.2)
      else some ([], l)
    | [] => some ([], l)
  let core : List Char → Option (List Char × List Char) := fun l =>
    match intPart l with
    | none => none
    | some ip =>
      let fp := fracPart ip.2
      match expPart fp.2 with
      | none =>
        -- an ill-formed exponent still leaves a valid `int frac` lexeme
        -- only when no `e`/`E` was begun; `JSON.parse` rejects it otherwise
        none
      | some ep => some (ip.1 ++ fp.1 ++ ep.1, ep.2)
  match cs with
  | '-' :: rest => (core rest).map (fun r => ('-' :: r.1, r.2))
  | _ => core cs

mutual

/-- Recursive JSON value parser (models `JSON.parse`), fuelled; the fuel
argument strictly decreases on every recursive call and is sized by the
caller so that well-formed inputs never exhaust it. -/
def parseJValue : Nat → List Char → Option (Json × List Char)
  | 0, _ => none
  | fuel + 1, cs =>
    match skipWs cs with
    | 'n' :: 'u' :: 'l' :: 'l' :: rest => some (Json.null, rest)
    | 't' :: 'r' :: 'u' :: 'e' :: rest => some (Json.bool true, rest)
    | 'f' :: 'a' :: 'l' :: 's' :: 'e' :: rest => some (Json.bool false, rest)
    | '"' :: rest =>
      (parseJStringAux (rest.length + 1) rest).map (fun r => (Json.str (String.mk r.1), r.2))
    | '[' :: rest =>
      (match skipWs rest with
       | ']' :: r2 => some (Json.arr [], r2)
       | _ => (parseJItems fuel rest).map (fun r => (Json.arr r.1, r.2)))
    | c :: rest =>
      if c = Char.ofNat 123 then
        match skipWs rest with
        | c2 :: r2 =>
          if c2 = Char.ofNat 125 then some (Json.obj [], r2)
          else (parseJMembers fuel (c2 :: r2)).map
            (fun r => (Json.obj (r.1.foldl (fun m kv => rset m kv.1 kv.2) []), r.2))
        | [] => none
      else (parseJNumber (c :: rest)).map (fun r => (Json.num (String.mk r.1), r.2))
    | [] => none

/-- Comma-separated array items up to the closing bracket. -/
def parseJItems : Nat → List Char → Option (List Json × List Char)
  | 0, _ => none
  | fuel + 1, cs =>
    match parseJValue fuel cs with
    | none => none
    | some (v, rest) =>
      match skipWs rest with
      | ',' :: r2 => (parseJItems fuel r2).map (fun r => (v :: r.1, r.2))
      | ']' :: r2 => some ([v], r2)
      | _ => none

/-- Comma-separated object members up to the closing brace. -/
def parseJMembers : Nat → List Char → Option (List (String × Json) × List Char)
  | 0, _ => none
  | fuel + 1, cs =>
    match skipWs cs with
    | '"' :: rest =>
      match parseJStringAux (rest.length + 1) rest with
      | none => none
      | some (key, r2) =>
        match skipWs r2 with
        | ':' :: r3 =>
          match parseJValue fuel r3 with
          | none => none
          | some (v, r4) =>
            match skipWs r4 with
            | ',' :: r5 => (parseJMembers fuel r5).map (fun r => ((String.mk key, v) :: r.1, r.2))
            | c :: r5 =>
              if c = Char.ofNat 125 then some ([(String.mk key, v)], r5) else none
            | [] => none
        | _ => none
    | _ => none

end

/-- Models the JS built-in `JSON.parse`: parse one value and require only
trailing whitespace; `none` models the thrown `SyntaxError`. -/
def jsonParse (s : String) : Option Json :=
  let cs := s.data
  match parseJValue (4 * cs.length + 4) cs with
  | some (v, rest) => if skipWs rest = [] then some v else none
  | none => none

/-- String body escaping of `JSON.stringify`. -/
def escapeJChar (c : Char) : List Char :=
  if c = '"' then ['\\', '"']
  else if c = '\\' then ['\\', '\\']
  else if c = '\n' then ['\\', 'n']
  else if c = '\r' then ['\\', 'r']
  else if c = '\t' then ['\\', 't']
  else if c = Char.ofNat 8 then ['\\', 'b']
  else if c = Char.ofNat 12 then ['\\', 'f']
  else if c.toNat < 32 then
    let hx : Nat → Char := fun n => if n < 10 then Char.ofNat (48 + n) else Char.ofNat (87 + n)
    ['\\', 'u', '0', '0', hx (c.toNat / 16), hx (c.toNat % 16)]
  else [c]

mutual

/-- Models the JS built-in `JSON.stringify` (compact form, as the code
calls it with no spacing argument on the forward path). -/
def stringify : Json → String
  | Json.null => "null"
  | Json.bool true => "true"
  | Json.bool false => "false"
  | Json.num lit => lit
  | Json.str s => "\"" ++ String.mk (s.data.flatMap escapeJChar) ++ "\""
  | Json.arr xs => "[" ++ stringifyItems xs ++ "]"
  | Json.obj fs => String.mk [Char.ofNat 123] ++ stringifyMembers fs ++ String.mk [Char.ofNat 125]

/-- Comma-joined array elements. -/
def stringifyItems : List Json → String
  | [] => ""
  | [x] => stringify x
  | x :: rest => stringify x ++ "," ++ stringifyItems rest

/-- Comma-joined object members. -/
def stringifyMembers : List (String × Json) → String
  | [] => ""
  | [(k, v)] => "\"" ++ String.mk (k.data.flatMap escapeJChar) ++ "\":" ++ stringify v
  | (k, v) :: rest =>
    "\"" ++ String.mk (k.data.flatMap escapeJChar) ++ "\":" ++ stringify v ++ "," ++
      stringifyMembers rest

end

/-- The regex search `content.match(/```json\n([\s\S]*?)\n```/)`: the
leftmost fenced `json` block opening, then the lazily-earliest closing
fence after it; returns capture group 1. -/
def matchJsonCodeBlock (s : String) : Option String :=
  let cs := s.data
  let opener := "```json\n".data
  match findSubIdx opener cs with
  | none => none
  | some i =>
    let afterOpen := cs.drop (i + opener.length)
    match findSubIdx "\n```".data afterOpen with
    | none => none
    | some j => some (String.mk (afterOpen.take j))

/-- JS truthiness of a number literal: falsy exactly when its value is
zero (all mantissa digits `0`, any exponent). -/
def numLitTruthy (lit : String) : Bool :=
  let mantissa := lit.data.takeWhile (fun c => c ≠ 'e' ∧ c ≠ 'E')
  ¬ mantissa.all (fun c => ¬ c.isDigit ∨ c = '0')

/-- JS truthiness of a parsed JSON value (`if (parsedPayload)`): `null`,
`false`, `0` and `""` are falsy; every array and object is truthy. -/
def Json.truthy : Json → Bool
  | Json.null => false
  | Json.bool b => b
  | Json.num lit => numLitTruthy lit
  | Json.str s => s ≠ ""
  | Json.arr _ => true
  | Json.obj _ => true

/-- Models `Array.isArray`. -/
def Json.isArray : Json → Bool
  | Json.arr _ => true
  | _ => false

/-- The reserved-field read `parsedOuter.llmResponse` with the
`typeof ... === 'string'` check: a string-typed member of an object
(last write wins on duplicate keys, as built by the parser). -/
def llmResponseField : Json → Option String
  | Json.obj fs =>
    match rlookup fs "llmResponse" with
    | some (Json.str s) => some s
    | _ => none
  | _ => none

/-- The extraction chain of `forwardResponseToEndpoint` (lines 114–152),
translated with its exact try/catch structure:
strategy 1 parses the raw content; on failure the catch re-parses the
same content (strategy 2) to look for the string-typed `llmResponse`
field, parsing that string directly (strategy 2) or via a fenced block
inside it (strategy 3); a failure of the re-parse falls to the outer
catch, the fenced block in the raw content (strategy 4).  A JS member
access on a parsed `null` throws, which the outer catch also routes to
strategy 4. -/
def extractPayload (content : String) : Option Json :=
  match jsonParse content with
  | some parsed => some parsed
  | none =>
    match jsonParse content with
    | some parsedOuter =>
      match parsedOuter with
      | Json.null =>
        -- `parsedOuter.llmResponse` raises a TypeError on null, landing in
        -- the outer catch: the raw-content fenced-block strategy.
        (match matchJsonCodeBlock content with
         | some block => jsonParse (jsTrim block)
         | none => none)
      | _ =>
        match llmResponseField parsedOuter with
        | some inner =>
          (match jsonParse inner with
           | some p => some p
           | none =>
             match matchJsonCodeBlock inner with
             | some block => jsonParse (jsTrim block)
             | none => none)
        | none => none
    | none =>
      match matchJsonCodeBlock content with
      | some block => jsonParse (jsTrim block)
      | none => none

/-- The failure modes of `forwardResponseToEndpoint` before any network
call, with the thrown messages. -/
inductive ForwardError where
  | validation
  | extraction
  | methodNotSupported (m : String)
deriving Repr, DecidableEq

/-- The thrown `Error` message of each failure mode. -/
def ForwardError.message : ForwardError → String
  | ForwardError.validation => "Auto-forward failed: JSON content must be an array."
  | ForwardError.extraction => "Auto-forward failed: Could not find valid JSON content to send."
  | ForwardError.methodNotSupported m =>
    "Auto-forward failed: HTTP method " ++ m ++ " is not supported for sending a body."

/-- The outbound HTTP request the forwarder hands to `fetch` when every
local step succeeded. -/
structure PreparedRequest where
  url : String
  method : String
  headers : Record String
  body : String
deriving DecidableEq

/-- The header-specification parser (lines 100–106): newline-separated
lines, kept only when splitting on `:` yields exactly two parts, with
both sides trimmed. -/
def parseHeaders (headersString : String) : Record String :=
  (headersString.data.splitOn '\n').foldl
    (fun acc line =>
      match line.splitOn ':' with
      | [k, v] => rset acc (jsTrim (String.mk k)) (jsTrim (String.mk v))
      | _ => acc) []

/-- Embeds `forwardResponseToEndpoint` up to (and excluding) the `fetch`
call: header parsing, method gating, payload extraction, the truthiness
gate, array validation, body serialization and content-type injection.
An `Except.error` means the function throws before anything is sent. -/
def forwardPrepare (content url method headersString : String) :
    Except ForwardError PreparedRequest :=
  let headers := parseHeaders headersString
  if method = "POST" ∨ method = "PUT" then
    match extractPayload content with
    | some parsedPayload =>
      if parsedPayload.truthy then
        if ¬ parsedPayload.isArray then Except.error ForwardError.validation
        else
          let body := stringify parsedPayload
          let headers' :=
            if ¬ truthyOS (rlookup headers "Content-Type") ∧
                ¬ truthyOS (rlookup headers "content-type") then
              rset headers "Content-Type" "application/json"
            else headers
          Except.ok ⟨url, method, headers', body⟩
      else Except.error ForwardError.extraction
    | none => Except.error ForwardError.extraction
  else Except.error (ForwardError.methodNotSupported method)

/- ------------------------------------------------------------------
LLMPanel (src/components/LLMPanel.tsx).  React state setters take effect
as sequential state updates here; the two `useRef` cells
(`lastSentTimestampRef`, `isProcessingDataUpdate`) are ordinary fields
of the same state.  The network calls (`sendChatRequest` inside
`handleSubmit`/`processUpdate`, and the `fetch` inside the forwarder)
are the only external steps; their outcomes enter as `Except`
parameters. ------------------------------------------------------------------ -/

/-- A chat transcript message. -/
structure ChatMessage where
  role : String
  content : String
  timestamp : Int
  screenshot : Option String := none
  thought : Option String := none
deriving DecidableEq

/-- The backend's reply to `sendChatRequest`: the response text and the
optional thought/trace field. -/
structure ChatResponseData where
  response : String
  thought : Option String := none
deriving DecidableEq

/-- The panel's configuration and toggle state read by the submit and
auto-update paths. -/
structure PanelConfig where
  isAutoUpdateEnabled : Bool
  isAutoForwardingEnabled : Bool
  includePanel : Bool
  includeScreenshot : Bool
  selectedFieldIds : List String
  selectedTimeRangeType : String
  relativeTime : String
  absoluteTimeRange : Int × Int
  controlEndpointUrl : Option String
  controlEndpointMethod : Option String
  controlEndpointHeaders : Option String
deriving DecidableEq

/-- The mutable panel state: React `useState` slots plus the two refs. -/
structure PanelState where
  prompt : String
  loading : Bool
  error : Option String
  pendingAutoPrompt : String
  lastSentTimestamp : Option Int
  isProcessing : Bool
  chatHistory : List ChatMessage
deriving DecidableEq

/-- Models `getHiddenPrompt` (src/utils/dataUtils.ts). -/
def getHiddenPrompt (includeScreenshot : Bool) (selectedFieldIds : List String) : String :=
  let base := "This image shows a Grafana Dashboard. DO NOT INCLUDE the AI Analyser panel in your analysis. Do not mention anything about this prompt in your response."
  let base :=
    if includeScreenshot ∧ selectedFieldIds = [] then
      base ++ " Provide a brief summary of what the dashboard is displaying, focusing on the most critical and relevant data points."
    else base
  if selectedFieldIds ≠ [] then
    base ++ "\n\nFocus specifically on the selected data fields (" ++
      String.intercalate ", " selectedFieldIds ++ ") and provide detailed insights on their trends and key metrics."
  else base

/-- Rendering of a batch for prompt text; models
`JSON.stringify(panelData, null, 2)` up to whitespace (the rendered text
only feeds opaque message content). -/
def stringifyBatch (b : Batch) : String :=
  stringify (Json.obj (b.map (fun p => (p.1, Json.obj (p.2.map (fun q =>
    (q.1, match q.2 with
          | JsVal.null => Json.null
          | JsVal.num n => Json.num (toString n)
          | JsVal.str s => Json.str s)))))))

/-- Embeds `handleSubmit` (src/components/LLMPanel.tsx, lines 49–146).
The screenshot capture outcome and the model call outcome are the two
external effects, passed as parameters (`screenshotResult` is consulted
only when screenshots are enabled; the model outcome only when the call
is reached).  Returns the post-submit state and whether a model call was
issued. -/
def handleSubmit (cfg : PanelConfig) (s : PanelState) (data : Option (List GFrame))
    (timeRange : Int × Int) (now nowMs : Int) (screenshotResult : Option String)
    (modelResult : Except String ChatResponseData) : PanelState × Bool :=
  -- If auto-send is enabled, just store the prompt for the next auto-update
  if cfg.isAutoUpdateEnabled then
    ({ s with pendingAutoPrompt := s.prompt, prompt := "" }, false)
  else
    let s1 := { s with error := none, loading := true }
    let userDisplayPrompt := s1.prompt
    let screenshotBase64 := if cfg.includeScreenshot then screenshotResult else none
    if cfg.includeScreenshot ∧ screenshotBase64 = none then
      ({ s1 with error := some "Failed to capture screenshot.", loading := false }, false)
    else
      let newUserMessage : ChatMessage :=
        { role := "user", content := userDisplayPrompt, timestamp := nowMs,
          screenshot := screenshotBase64 }
      let s2 := { s1 with chatHistory := s1.chatHistory ++ [newUserMessage], prompt := "" }
      let panelResult :=
        if cfg.includePanel ∧ cfg.selectedFieldIds ≠ [] then
          logPanelData data cfg.includePanel cfg.selectedFieldIds timeRange
            cfg.selectedTimeRangeType cfg.relativeTime cfg.absoluteTimeRange now none none
        else none
      let initialLatestTimestamp :=
        match panelResult with
        | some r => r.latestTimestamp
        | none => none
      match modelResult with
      | Except.error e =>
        ({ s2 with error := some (if e = "" then "An error occurred" else e),
                   loading := false }, true)
      | Except.ok responseData =>
        let newAssistantMessage : ChatMessage :=
          { role := "assistant", content := responseData.response, timestamp := nowMs,
            thought := responseData.thought }
        let s3 := { s2 with chatHistory := s2.chatHistory ++ [newAssistantMessage] }
        let s4 :=
          match initialLatestTimestamp with
          | some ts => { s3 with lastSentTimestamp := some ts }
          | none => s3
        ({ s4 with loading := false }, true)

/-- Embeds the guard and diff evaluation of the auto-update `useEffect`
(lines 149–162) together with the immediate entry of `processUpdate`
(`setLoading(true); setError(null)`, lines 163–165): when every guard
passes and the diff is non-empty, the in-flight flag is set and a model
call carrying the batch is issued.  Returns the new state and the issued
call's batch and latest timestamp (`none` when no call is issued). -/
def autoUpdateTick (cfg : PanelConfig) (s : PanelState) (data : Option (List GFrame)) :
    PanelState × Option (Batch × Int) :=
  if ¬ cfg.isAutoUpdateEnabled ∨ ¬ cfg.includePanel ∨ cfg.selectedFieldIds = [] ∨
      s.lastSentTimestamp = none ∨ s.isProcessing then
    (s, none)
  else
    let result := processIncrementalData data cfg.selectedFieldIds s.lastSentTimestamp
    let panelData := result.incrementalData
    match result.latestTimestampInBatch with
    | none => (s, none)
    | some newLatestTimestamp =>
      if panelData ≠ [] then
        ({ s with isProcessing := true, loading := true, error := none },
          some (panelData, newLatestTimestamp))
      else (s, none)

/-- The forwarder invocation inside `processUpdate` (lines 209–216): the
deterministic local pipeline (`forwardPrepare`) composed with the
network outcome of the `fetch`, which only occurs when preparation
succeeded. -/
def forwardOutcome (cfg : PanelConfig) (responseText : String)
    (netResult : Except String Unit) : Except String Unit :=
  match forwardPrepare responseText (cfg.controlEndpointUrl.getD "")
      (jsOrSD cfg.controlEndpointMethod "POST")
      (jsOrSD cfg.controlEndpointHeaders "") with
  | Except.error fe => Except.error fe.message
  | Except.ok _ => netResult

/-- Embeds the body of `processUpdate` (lines 167–225) after the model
call resolves: on success append the marker and assistant messages,
clear a pending ad-hoc prompt, optionally forward the response (only
its `response` field), then advance the watermark; on any thrown error
record it; the `finally` block always clears the in-flight flag and the
loading flag. -/
def autoUpdateComplete (cfg : PanelConfig) (s : PanelState) (newLatestTimestamp : Int)
    (nowMs : Int) (modelResult : Except String ChatResponseData)
    (netResult : Except String Unit) : PanelState :=
  match modelResult with
  | Except.error e =>
    { s with error := some ("Auto-update failed: " ++ e),
             isProcessing := false, loading := false }
  | Except.ok responseData =>
    let userMarkerMessage : ChatMessage :=
      { role := "user",
        content := "(Data automatically updated to " ++ formatTimestamp newLatestTimestamp ++ ")" ++
          (if s.pendingAutoPrompt ≠ "" then " - " ++ s.pendingAutoPrompt else ""),
        timestamp := nowMs }
    let assistantMessage : ChatMessage :=
      { role := "assistant", content := responseData.response, timestamp := nowMs,
        thought := responseData.thought }
    let s1 := { s with chatHistory := s.chatHistory ++ [userMarkerMessage, assistantMessage] }
    -- Clear pending prompt after it's been sent
    let s2 := if s1.pendingAutoPrompt ≠ "" then { s1 with pendingAutoPrompt := "" } else s1
    if cfg.isAutoForwardingEnabled ∧ truthyOS cfg.controlEndpointUrl then
      match forwardOutcome cfg responseData.response netResult with
      | Except.error e =>
        { s2 with error := some ("Auto-update failed: " ++ e),
                  isProcessing := false, loading := false }
      | Except.ok _ =>
        { s2 with lastSentTimestamp := some newLatestTimestamp,
                  isProcessing := false, loading := false }
    else
      { s2 with lastSentTimestamp := some newLatestTimestamp,
                isProcessing := false, loading := false }

/- ------------------------------------------------------------------
Lemmas about the JS object embedding. ------------------------------------------------------------------ -/

theorem rlookup_rset {α : Type} (m : Record α) (k k' : String) (v : α) :
    rlookup (rset m k v) k' = if k = k' then some v else rlookup m k' := by
  induction m with
  | nil => simp [rset, rlookup]
  | cons p t ih =>
    obtain ⟨a, b⟩ := p
    by_cases hak : a = k
    · subst hak
      by_cases hk' : a = k'
      · subst hk'; simp [rset, rlookup]
      · simp [rset, rlookup, hk']
    · by_cases hk' : a = k'
      · subst hk'
        have hne : k ≠ a := fun h => hak h.symm
        simp [rset, hak, rlookup, hne]
      · simp [rset, hak, rlookup, hk', ih]

theorem rset_ne_nil {α : Type} (m : Record α) (k : String) (v : α) :
    rset m k v ≠ [] := by
  cases m with
  | nil => simp [rset]
  | cons p t =>
    obtain ⟨a, b⟩ := p
    by_cases hak : a = k <;> simp [rset, hak]

theorem mem_rset {α : Type} {m : Record α} {k a : String} {v b : α}
    (h : (a, b) ∈ rset m k v) : (a, b) ∈ m ∨ (a = k ∧ b = v) := by
  induction m with
  | nil => simp [rset] at h; tauto
  | cons p t ih =>
    obtain ⟨a', b'⟩ := p
    by_cases hak : a' = k
    · subst hak
      simp [rset] at h
      rcases h with h | h
      · right; exact ⟨h.1, h.2⟩
      · left; simp [h]
    · simp [rset, hak] at h
      rcases h with h | h
      · left; simp [h]
      · rcases ih h with h' | h'
        · left; simp [h']
        · right; exact h'

theorem rset_self_mem {α : Type} (m : Record α) (k : String) (v : α) :
    (k, v) ∈ rset m k v := by
  induction m with
  | nil => simp [rset]
  | cons p t ih =>
    obtain ⟨a, b⟩ := p
    by_cases hak : a = k
    · subst hak; simp [rset]
    · simp [rset, hak]
      right; exact ih

theorem rlookup_mem {α : Type} {m : Record α} {k : String} {v : α}
    (h : rlookup m k = some v) : (k, v) ∈ m := by
  induction m with
  | nil => simp [rlookup] at h
  | cons p t ih =>
    obtain ⟨a, b⟩ := p
    by_cases hak : a = k
    · subst hak
      simp [rlookup] at h
      simp [h]
    · simp [rlookup, hak] at h
      simp [ih h]

theorem rlookup_isSome_rset {α : Type} {m : Record α} {k' : String}
    (k : String) (v : α) (h : (rlookup m k').isSome) :
    (rlookup (rset m k v) k').isSome := by
  rw [rlookup_rset]
  by_cases hk : k = k' <;> simp [hk, h]

theorem jsAssign_ne_nil {dst src : Record JsVal} (h : dst ≠ [] ∨ src ≠ []) :
    jsAssign dst src ≠ [] := by
  induction src generalizing dst with
  | nil =>
    rcases h with h | h
    · simpa [jsAssign] using h
    · simp at h
  | cons p rest ih =>
    obtain ⟨k, v⟩ := p
    simp only [jsAssign]
    exact ih (Or.inl (rset_ne_nil dst k v))

theorem mem_jsAssign {dst src : Record JsVal} {a : String} {b : JsVal}
    (h : (a, b) ∈ jsAssign dst src) : (a, b) ∈ dst ∨ (a, b) ∈ src := by
  induction src generalizing dst with
  | nil => simp [jsAssign] at h; tauto
  | cons p rest ih =>
    obtain ⟨k, v⟩ := p
    simp only [jsAssign] at h
    rcases ih h with h' | h'
    · rcases mem_rset h' with h'' | h''
      · tauto
      · right; simp [h'']
    · right; simp [h']

theorem rlookup_isSome_jsAssign_left {dst src : Record JsVal} {k : String}
    (h : (rlookup dst k).isSome) : (rlookup (jsAssign dst src) k).isSome := by
  induction src generalizing dst with
  | nil => simpa [jsAssign] using h
  | cons p rest ih =>
    obtain ⟨k0, v0⟩ := p
    simp only [jsAssign]
    exact ih (rlookup_isSome_rset k0 v0 h)

theorem rlookup_isSome_jsAssign_right {dst src : Record JsVal} {k : String} {v : JsVal}
    (h : (k, v) ∈ src) : (rlookup (jsAssign dst src) k).isSome := by
  induction src generalizing dst with
  | nil => simp at h
  | cons p rest ih =>
    obtain ⟨k0, v0⟩ := p
    simp only [jsAssign]
    rcases List.mem_cons.mp h with h' | h'
    · have hkk : k = k0 := by simpa using congrArg Prod.fst h'
      subst hkk
      apply rlookup_isSome_jsAssign_left
      rw [rlookup_rset]
      simp
    · exact ih h'

/-- Nested lookup in a batch: the value of field `uid` at formatted
timestamp `ts`, when present. -/
def lookup2 (m : Batch) (ts uid : String) : Option JsVal :=
  match rlookup m ts with
  | some entry => rlookup entry uid
  | none => none

/-- A `(timestamp-key, field, value)` triple occurs somewhere in a batch
(at the raw pair level, ignoring shadowing). -/
def pairIn2 (m : Batch) (ts uid : String) (v : JsVal) : Prop :=
  ∃ entry, (ts, entry) ∈ m ∧ (uid, v) ∈ entry

theorem lookup2_pairIn2 {m : Batch} {ts uid : String} {v : JsVal}
    (h : lookup2 m ts uid = some v) : pairIn2 m ts uid v := by
  unfold lookup2 at h
  cases he : rlookup m ts with
  | none => rw [he] at h; cases h
  | some entry =>
    rw [he] at h
    exact ⟨entry, rlookup_mem he, rlookup_mem h⟩

/-- Origins of a pair after the batch insertion pattern
`d[ft][uid] = v` (`rset d ft (rset (d[ft] || emptyrec) uid v)`). -/
theorem pairIn2_insert {d : Batch} {ft uid : String} {v : JsVal} {ts uid' : String} {v' : JsVal}
    (h : pairIn2 (rset d ft (rset (rget d ft) uid v)) ts uid' v') :
    pairIn2 d ts uid' v' ∨ (ts = ft ∧ uid' = uid ∧ v' = v) := by
  obtain ⟨entry, hmem, hin⟩ := h
  rcases mem_rset hmem with hd | ⟨hts, hentry⟩
  · exact Or.inl ⟨entry, hd, hin⟩
  · subst hentry
    rcases mem_rset hin with hg | ⟨hu, hv⟩
    · unfold rget at hg
      cases hlk : rlookup d ft with
      | none => rw [hlk] at hg; simp at hg
      | some e0 =>
        rw [hlk] at hg
        exact Or.inl ⟨e0, by rw [hts]; exact rlookup_mem hlk, hg⟩
    · exact Or.inr ⟨hts, hu, hv⟩

/-- Origins of a pair after one per-field result is merged into the
combined batch. -/
theorem pairIn2_mergeSeriesData {comb sd : Batch} {ts uid : String} {v : JsVal}
    (h : pairIn2 (mergeSeriesData comb sd) ts uid v) :
    pairIn2 comb ts uid v ∨ pairIn2 sd ts uid v := by
  induction sd generalizing comb with
  | nil => exact Or.inl h
  | cons p rest ih =>
    obtain ⟨ts0, vals0⟩ := p
    simp only [mergeSeriesData] at h
    rcases ih h with h' | h'
    · obtain ⟨entry, hmem, hin⟩ := h'
      rcases mem_rset hmem with hd | ⟨hts, hentry⟩
      · exact Or.inl ⟨entry, hd, hin⟩
      · subst hentry
        rcases mem_jsAssign hin with hg | hg
        · unfold rget at hg
          cases hlk : rlookup comb ts0 with
          | none => rw [hlk] at hg; simp at hg
          | some e0 =>
            rw [hlk] at hg
            exact Or.inl ⟨e0, by rw [hts]; exact rlookup_mem hlk, hg⟩
        · exact Or.inr ⟨vals0, by rw [hts]; simp, hg⟩
    · rcases h' with ⟨entry, hmem, hin⟩
      exact Or.inr ⟨entry, by simp [hmem], hin⟩

/-- Origins across merging a list of per-field results. -/
theorem pairIn2_mergeSeriesDataList {comb : Batch} {l : List Batch} {ts uid : String} {v : JsVal}
    (h : pairIn2 (mergeSeriesDataList comb l) ts uid v) :
    pairIn2 comb ts uid v ∨ ∃ sd ∈ l, pairIn2 sd ts uid v := by
  induction l generalizing comb with
  | nil => exact Or.inl h
  | cons sd rest ih =>
    simp only [mergeSeriesDataList] at h
    rcases ih h with h' | h'
    · rcases pairIn2_mergeSeriesData h' with h'' | h''
      · exact Or.inl h''
      · exact Or.inr ⟨sd, by simp, h''⟩
    · obtain ⟨sd', hsd', hp⟩ := h'
      exact Or.inr ⟨sd', by simp [hsd'], hp⟩

/-- Origins across the outer restructuring fold. -/
theorem pairIn2_restructureFold {comb : Batch} {all : Record (List Batch)}
    {ts uid : String} {v : JsVal}
    (h : pairIn2 (restructureFold comb all) ts uid v) :
    pairIn2 comb ts uid v ∨ ∃ u arr, (u, arr) ∈ all ∧ ∃ sd ∈ arr, pairIn2 sd ts uid v := by
  induction all generalizing comb with
  | nil => exact Or.inl h
  | cons p rest ih =>
    obtain ⟨u0, arr0⟩ := p
    simp only [restructureFold] at h
    rcases ih h with h' | h'
    · rcases pairIn2_mergeSeriesDataList h' with h'' | h''
      · exact Or.inl h''
      · exact Or.inr ⟨u0, arr0, by simp, h''⟩
    · obtain ⟨u, arr, harr, hsd⟩ := h'
      exact Or.inr ⟨u, arr, by simp [harr], hsd⟩

/-- Origins of any pair of the combined restructured batch: it comes from
one of the stored per-field results. -/
theorem pairIn2_restructure {all : Record (List Batch)} {ts uid : String} {v : JsVal}
    (h : pairIn2 (restructurePanelData all) ts uid v) :
    ∃ u arr, (u, arr) ∈ all ∧ ∃ sd ∈ arr, pairIn2 sd ts uid v := by
  rcases @pairIn2_restructureFold [] all ts uid v h with h' | h'
  · obtain ⟨entry, hmem, _⟩ := h'
    simp at hmem
  · exact h'

/-- Origins of any pair of a per-field incremental result: either it was
already present, or it is a sample from the processed pair list that
passed the watermark filter. -/
theorem pairIn2_incrSeriesLoop {uid : String} {since : Option Int}
    {pairs : List (Int × JsVal)} {sd0 : Batch} {lat0 : Option Int}
    {ts uid' : String} {v : JsVal}
    (h : pairIn2 (incrSeriesLoop uid since pairs sd0 lat0).1 ts uid' v) :
    pairIn2 sd0 ts uid' v ∨
      ∃ t, (t, v) ∈ pairs ∧ passesSince since t = true ∧ uid' = uid ∧
        formatTimestamp t = ts := by
  induction pairs generalizing sd0 lat0 with
  | nil => exact Or.inl h
  | cons p rest ih =>
    obtain ⟨t, v0⟩ := p
    by_cases hp : passesSince since t = true
    · simp only [incrSeriesLoop, hp, if_true] at h
      rcases ih h with h' | h'
      · rcases pairIn2_insert h' with h'' | ⟨hts, hu, hv⟩
        · exact Or.inl h''
        · right; exact ⟨t, by simp [hv], hp, hu, hts.symm⟩
      · obtain ⟨t', ht', hp', hu, hft⟩ := h'
        right; exact ⟨t', by simp [ht'], hp', hu, hft⟩
    · simp only [incrSeriesLoop, hp, if_false] at h
      rcases ih h with h' | h'
      · exact Or.inl h'
      · obtain ⟨t', ht', hp', hu, hft⟩ := h'
        right; exact ⟨t', by simp [ht'], hp', hu, hft⟩

/-- The threaded latest-included timestamp only ever holds values that
passed the watermark filter. -/
theorem incrSeriesLoop_latest {uid : String} {since : Option Int}
    {pairs : List (Int × JsVal)} {sd0 : Batch} {lat0 : Option Int}
    (h0 : ∀ l, lat0 = some l → passesSince since l = true) :
    ∀ l, (incrSeriesLoop uid since pairs sd0 lat0).2 = some l →
      passesSince since l = true := by
  induction pairs generalizing sd0 lat0 with
  | nil => exact h0
  | cons p rest ih =>
    obtain ⟨t, v0⟩ := p
    by_cases hp : passesSince since t = true
    · simp only [incrSeriesLoop, hp, if_true]
      apply ih
      intro l hl
      cases hlat : lat0 with
      | none => rw [hlat] at hl; simp at hl; subst hl; exact hp
      | some m =>
        rw [hlat] at hl
        by_cases hgt : t > m
        · simp [hgt] at hl; subst hl; exact hp
        · simp [hgt] at hl; subst hl; exact h0 m hlat
    · simp only [incrSeriesLoop, hp, if_false]
      exact ih h0

/-- Entries survive the batch insertion pattern. -/
theorem lookup2_isSome_insert {d : Batch} {ft uid : String} {v : JsVal} {ts uid' : String}
    (h : (lookup2 d ts uid').isSome) :
    (lookup2 (rset d ft (rset (rget d ft) uid v)) ts uid').isSome := by
  unfold lookup2 at h ⊢
  rw [rlookup_rset]
  by_cases hft : ft = ts
  · subst hft
    cases hlk : rlookup d ft with
    | none => rw [hlk] at h; simp at h
    | some entry =>
      rw [hlk] at h
      simp only [if_pos rfl]
      unfold rget
      rw [hlk]
      exact rlookup_isSome_rset uid v h
  · rw [if_neg hft]
    exact h

/-- The inserted entry is present after the batch insertion pattern. -/
theorem lookup2_isSome_insert_self (d : Batch) (ft uid : String) (v : JsVal) :
    (lookup2 (rset d ft (rset (rget d ft) uid v)) ft uid).isSome := by
  unfold lookup2
  rw [rlookup_rset]
  simp only [if_pos rfl]
  show (rlookup (rset (rget d ft) uid v) uid).isSome = true
  rw [rlookup_rset]
  simp

/-- Entries survive the per-field incremental loop. -/
theorem incrSeriesLoop_has_preserve {uid : String} {since : Option Int}
    {pairs : List (Int × JsVal)} {sd0 : Batch} {lat0 : Option Int} {ts uid' : String}
    (h : (lookup2 sd0 ts uid').isSome) :
    (lookup2 (incrSeriesLoop uid since pairs sd0 lat0).1 ts uid').isSome := by
  induction pairs generalizing sd0 lat0 with
  | nil => exact h
  | cons p rest ih =>
    obtain ⟨t, v0⟩ := p
    by_cases hp : passesSince since t = true
    · simp only [incrSeriesLoop, hp, if_true]
      exact ih (lookup2_isSome_insert h)
    · simp only [incrSeriesLoop, hp, if_false]
      exact ih h

/-- Every sample of the pair list passing the watermark filter lands in
the per-field incremental result. -/
theorem incrSeriesLoop_has_add {uid : String} {since : Option Int}
    {pairs : List (Int × JsVal)} {sd0 : Batch} {lat0 : Option Int} {t : Int} {v : JsVal}
    (hmem : (t, v) ∈ pairs) (hp : passesSince since t = true) :
    (lookup2 (incrSeriesLoop uid since pairs sd0 lat0).1 (formatTimestamp t) uid).isSome := by
  induction pairs generalizing sd0 lat0 with
  | nil => simp at hmem
  | cons p rest ih =>
    obtain ⟨t0, v0⟩ := p
    rcases List.mem_cons.mp hmem with heq | htail
    · have ht : t = t0 := congrArg Prod.fst heq
      have hv : v = v0 := congrArg Prod.snd heq
      subst ht
      subst hv
      simp only [incrSeriesLoop, hp, if_true]
      exact incrSeriesLoop_has_preserve (lookup2_isSome_insert_self sd0 (formatTimestamp t) uid v)
    · by_cases hp0 : passesSince since t0 = true
      · simp only [incrSeriesLoop, hp0, if_true]
        exact ih htail
      · simp only [incrSeriesLoop, hp0, if_false]
        exact ih htail

/-- Entries of the combined batch survive merging a per-field result. -/
theorem mergeSeriesData_has_preserve {comb sd : Batch} {ts uid : String}
    (h : (lookup2 comb ts uid).isSome) :
    (lookup2 (mergeSeriesData comb sd) ts uid).isSome := by
  induction sd generalizing comb with
  | nil => exact h
  | cons p rest ih =>
    obtain ⟨ts0, vals0⟩ := p
    simp only [mergeSeriesData]
    apply ih
    unfold lookup2 at h ⊢
    rw [rlookup_rset]
    by_cases hts : ts0 = ts
    · subst hts
      cases hlk : rlookup comb ts0 with
      | none => rw [hlk] at h; simp at h
      | some entry =>
        rw [hlk] at h
        simp only [if_pos rfl]
        unfold rget
        rw [hlk]
        exact rlookup_isSome_jsAssign_left h
    · rw [if_neg hts]
      exact h

theorem rlookup_cons {α : Type} (a : String) (b : α) (t : Record α) (k : String) :
    rlookup ((a, b) :: t) k = if a = k then some b else rlookup t k := rfl

/-- Entries of a per-field result are imported into the combined batch by
the merge. -/
theorem mergeSeriesData_has_import {comb sd : Batch} {ts uid : String}
    (h : (lookup2 sd ts uid).isSome) :
    (lookup2 (mergeSeriesData comb sd) ts uid).isSome := by
  induction sd generalizing comb with
  | nil => unfold lookup2 rlookup at h; simp at h
  | cons p rest ih =>
    obtain ⟨ts0, vals0⟩ := p
    simp only [mergeSeriesData]
    by_cases hts : ts0 = ts
    · subst hts
      unfold lookup2 at h
      rw [rlookup_cons, if_pos rfl] at h
      simp only [] at h
      cases hv : rlookup vals0 uid with
      | none => rw [hv] at h; simp at h
      | some v =>
        apply mergeSeriesData_has_preserve
        unfold lookup2
        rw [rlookup_rset]
        simp only [if_pos rfl]
        exact rlookup_isSome_jsAssign_right (rlookup_mem hv)
    · apply ih
      unfold lookup2 at h ⊢
      rw [rlookup_cons, if_neg hts] at h
      exact h

/-- Entry preservation across merging a list of per-field results. -/
theorem mergeSeriesDataList_has_preserve {comb : Batch} {l : List Batch} {ts uid : String}
    (h : (lookup2 comb ts uid).isSome) :
    (lookup2 (mergeSeriesDataList comb l) ts uid).isSome := by
  induction l generalizing comb with
  | nil => exact h
  | cons sd rest ih => exact ih (mergeSeriesData_has_preserve h)

/-- Entry import across merging a list of per-field results. -/
theorem mergeSeriesDataList_has_import {comb : Batch} {l : List Batch} {sd : Batch}
    {ts uid : String} (hsd : sd ∈ l) (h : (lookup2 sd ts uid).isSome) :
    (lookup2 (mergeSeriesDataList comb l) ts uid).isSome := by
  induction l generalizing comb with
  | nil => simp at hsd
  | cons sd0 rest ih =>
    rcases List.mem_cons.mp hsd with heq | htail
    · subst heq
      simp only [mergeSeriesDataList]
      exact mergeSeriesDataList_has_preserve (mergeSeriesData_has_import h)
    · simp only [mergeSeriesDataList]
      exact ih htail

/-- Entry preservation across the outer restructuring fold. -/
theorem restructureFold_has_preserve {comb : Batch} {all : Record (List Batch)}
    {ts uid : String} (h : (lookup2 comb ts uid).isSome) :
    (lookup2 (restructureFold comb all) ts uid).isSome := by
  induction all generalizing comb with
  | nil => exact h
  | cons p rest ih =>
    obtain ⟨u0, arr0⟩ := p
    exact ih (mergeSeriesDataList_has_preserve h)

/-- Entry import across the outer restructuring fold. -/
theorem restructureFold_has_import {comb : Batch} {all : Record (List Batch)}
    {u : String} {arr : List Batch} {sd : Batch} {ts uid : String}
    (hu : (u, arr) ∈ all) (hsd : sd ∈ arr) (h : (lookup2 sd ts uid).isSome) :
    (lookup2 (restructureFold comb all) ts uid).isSome := by
  induction all generalizing comb u arr with
  | nil => simp at hu
  | cons p rest ih =>
    obtain ⟨u0, arr0⟩ := p
    rcases List.mem_cons.mp hu with heq | htail
    · have harr : arr = arr0 := congrArg Prod.snd heq
      subst harr
      simp only [restructureFold]
      exact restructureFold_has_preserve (mergeSeriesDataList_has_import hsd h)
    · simp only [restructureFold]
      exact ih htail hsd

/-- Any entry of any stored per-field result reaches the restructured
combined batch. -/
theorem restructure_has {all : Record (List Batch)} {u : String} {arr : List Batch}
    {sd : Batch} {ts uid : String} (hu : (u, arr) ∈ all) (hsd : sd ∈ arr)
    (h : (lookup2 sd ts uid).isSome) :
    (lookup2 (restructurePanelData all) ts uid).isSome :=
  restructureFold_has_import hu hsd h

/-- A selected sample of the upstream frames, as `processIncrementalData`
traverses them: some frame has a time column (the first field of type
`time`), a non-time field resolving to the selected identifier `uid`,
and `(t, v)` among that field's index-aligned samples. -/
def sampleIn (frames : List GFrame) (ids : List String) (uid : String)
    (t : Int) (v : JsVal) : Prop :=
  ∃ s ∈ frames, ∃ tc, s.fields.find? (fun f => f.ftype = "time") = some tc ∧
    ∃ vf ∈ s.fields.filter (fun f => f.ftype ≠ "time"),
      generateUniqueFieldId vf s.name = uid ∧ ids.contains uid = true ∧
      (t, v) ∈ zipPad (tc.values.map jsNum) vf.values

/-- Every pair of every stored per-field result originates in a selected
sample that passed the watermark filter. -/
def storedOriginOk (frames : List GFrame) (ids : List String) (since : Option Int)
    (all : Record (List Batch)) : Prop :=
  ∀ u arr, (u, arr) ∈ all → ∀ sd ∈ arr, ∀ ts uid v, pairIn2 sd ts uid v →
    ∃ t, sampleIn frames ids uid t v ∧ passesSince since t = true ∧
      formatTimestamp t = ts

/-- The threaded latest timestamp, when present, passed the watermark
filter. -/
def latOk (since : Option Int) (lat : Option Int) : Prop :=
  ∀ l, lat = some l → passesSince since l = true

theorem mem_pushField {all : Record (List Batch)} {uid : String} {sd : Batch}
    {u : String} {arr : List Batch} (h : (u, arr) ∈ pushField all uid sd) :
    (u, arr) ∈ all ∨
      (u = uid ∧ ∀ sd' ∈ arr, sd' = sd ∨ ∃ a, rlookup all uid = some a ∧ sd' ∈ a) := by
  unfold pushField at h
  rcases mem_rset h with h' | ⟨hu, harr⟩
  · exact Or.inl h'
  · right
    refine ⟨hu, ?_⟩
    intro sd' hsd'
    rw [harr] at hsd'
    cases hlk : rlookup all uid with
    | none => rw [hlk] at hsd'; simp at hsd'; exact Or.inl hsd'
    | some a =>
      rw [hlk] at hsd'
      rcases List.mem_append.mp hsd' with hin | hin
      · exact Or.inr ⟨a, rfl, hin⟩
      · simp at hin; exact Or.inl hin

/-- The per-frame field loop preserves the stored-origin invariant. -/
theorem procFields_origin {frames : List GFrame} {ids : List String} {since : Option Int}
    {sname : String} {tc : GField} {fl : List GField}
    {acc : Record (List Batch) × Option Int}
    (hfl : ∀ vf ∈ fl, ids.contains (generateUniqueFieldId vf sname) = true →
      ∀ t v, (t, v) ∈ zipPad (tc.values.map jsNum) vf.values →
        sampleIn frames ids (generateUniqueFieldId vf sname) t v)
    (hall : storedOriginOk frames ids since acc.1) (hlat : latOk since acc.2) :
    storedOriginOk frames ids since (procFields sname tc ids since fl acc).1 ∧
      latOk since (procFields sname tc ids since fl acc).2 := by
  induction fl generalizing acc with
  | nil => exact ⟨hall, hlat⟩
  | cons vf rest ih =>
    by_cases hc : ids.contains (generateUniqueFieldId vf sname) = true
    · simp only [procFields, hc, if_true]
      apply ih
      · intro vf' hvf' hc' t v hm
        exact hfl vf' (by simp [hvf']) hc' t v hm
      · -- the updated store
        intro u arr harr sd hsd ts uid v hp
        have hnewsd : ∀ sd0, sd0 = (incrSeriesLoop (generateUniqueFieldId vf sname) since
            (zipPad (tc.values.map jsNum) vf.values) [] acc.2).1 →
            ∀ ts' uid' v', pairIn2 sd0 ts' uid' v' →
            ∃ t, sampleIn frames ids uid' t v' ∧ passesSince since t = true ∧
              formatTimestamp t = ts' := by
          intro sd0 hsd0 ts' uid' v' hp'
          rw [hsd0] at hp'
          rcases pairIn2_incrSeriesLoop hp' with hempty | ⟨t, htv, hpass, huid, hft⟩
          · obtain ⟨entry, hmem, _⟩ := hempty
            simp at hmem
          · subst huid
            exact ⟨t, hfl vf (by simp) hc t v' htv, hpass, hft⟩
        by_cases hne : (incrSeriesLoop (generateUniqueFieldId vf sname) since
            (zipPad (tc.values.map jsNum) vf.values) [] acc.2).1 ≠ []
        · rw [if_pos hne] at harr
          rcases mem_pushField harr with hold | ⟨hu, hmem⟩
          · exact hall u arr hold sd hsd ts uid v hp
          · rcases hmem sd hsd with hnew | ⟨a, hlk, hin⟩
            · exact hnewsd sd hnew ts uid v hp
            · exact hall _ a (rlookup_mem hlk) sd hin ts uid v hp
        · rw [if_neg hne] at harr
          exact hall u arr harr sd hsd ts uid v hp
      · exact incrSeriesLoop_latest hlat
    · simp only [procFields, hc, if_false]
      apply ih ?_ hall hlat
      intro vf' hvf' hc' t v hm
      exact hfl vf' (by simp [hvf']) hc' t v hm

/-- The frame loop preserves the stored-origin invariant. -/
theorem procFrames_origin {frames : List GFrame} {ids : List String} {since : Option Int}
    {fl : List GFrame} {acc : Record (List Batch) × Option Int}
    (hsub : ∀ s ∈ fl, s ∈ frames)
    (hall : storedOriginOk frames ids since acc.1) (hlat : latOk since acc.2) :
    storedOriginOk frames ids since (procFrames ids since fl acc).1 ∧
      latOk since (procFrames ids since fl acc).2 := by
  induction fl generalizing acc with
  | nil => exact ⟨hall, hlat⟩
  | cons s rest ih =>
    have hsub' : ∀ s' ∈ rest, s' ∈ frames := fun s' h => hsub s' (by simp [h])
    cases hfind : s.fields.find? (fun f => f.ftype = "time") with
    | none =>
      simp only [procFrames, hfind]
      exact ih hsub' hall hlat
    | some tc =>
      simp only [procFrames, hfind]
      have hstep := @procFields_origin frames ids since s.name tc
        (s.fields.filter (fun f => f.ftype ≠ "time")) acc
        ?_ hall hlat
      · exact ih hsub' hstep.1 hstep.2
      · intro vf hvf hc t v hm
        exact ⟨s, hsub s (by simp), tc, hfind, vf, hvf, rfl, hc, hm⟩

/-- Every value of the incremental batch originates in a selected sample
that passed the watermark filter, with a matching timestamp key. -/
theorem processIncrementalData_origin {frames : List GFrame} {ids : List String}
    {since : Option Int} {ts uid : String} {v : JsVal}
    (h : lookup2 (processIncrementalData (some frames) ids since).incrementalData
      ts uid = some v) :
    ∃ t, sampleIn frames ids uid t v ∧ passesSince since t = true ∧
      formatTimestamp t = ts := by
  unfold processIncrementalData at h
  by_cases hemp : frames.isEmpty
  · simp only [hemp, if_true] at h
    unfold lookup2 rlookup at h
    simp at h
  · simp only [hemp, if_false] at h
    have hp := lookup2_pairIn2 h
    obtain ⟨u, arr, harr, sd, hsd, hps⟩ := pairIn2_restructure hp
    have hinv := @procFrames_origin frames ids since frames ([], none) (fun s h => h)
      (fun u arr h => by simp at h) (fun l h => by simp at h)
    exact hinv.1 u arr harr sd hsd ts uid v hps

/-- The reported latest included timestamp passed the watermark filter. -/
theorem processIncrementalData_latest {frames : List GFrame} {ids : List String}
    {since : Option Int} {l : Int}
    (h : (processIncrementalData (some frames) ids since).latestTimestampInBatch = some l) :
    passesSince since l = true := by
  unfold processIncrementalData at h
  by_cases hemp : frames.isEmpty
  · simp only [hemp, if_true] at h
    cases h
  · simp only [hemp, if_false] at h
    have hinv := @procFrames_origin frames ids since frames ([], none) (fun s h => h)
      (fun u arr h => by simp at h) (fun l h => by simp at h)
    exact hinv.2 l h

/-- Some stored per-field result holds an entry for `(ts, uid)`. -/
def storedHas (all : Record (List Batch)) (ts uid : String) : Prop :=
  ∃ u arr sd, (u, arr) ∈ all ∧ sd ∈ arr ∧ (lookup2 sd ts uid).isSome

theorem lookup2_isSome_ne_nil {sd : Batch} {ts uid : String}
    (h : (lookup2 sd ts uid).isSome) : sd ≠ [] := by
  intro hnil
  subst hnil
  unfold lookup2 rlookup at h
  simp at h

theorem pushField_cons_ne {k0 : String} {arr0 : List Batch} {rest : Record (List Batch)}
    {uid : String} {sd : Batch} (h : k0 ≠ uid) :
    pushField ((k0, arr0) :: rest) uid sd = (k0, arr0) :: pushField rest uid sd := by
  unfold pushField
  rw [rlookup_cons, if_neg h]
  unfold rset
  rw [if_neg h]
  cases rest with
  | nil => rfl
  | cons q t => rfl

theorem pushField_cons_eq {arr0 : List Batch} {rest : Record (List Batch)}
    {uid : String} {sd : Batch} :
    pushField ((uid, arr0) :: rest) uid sd = (uid, arr0 ++ [sd]) :: rest := by
  unfold pushField
  rw [rlookup_cons, if_pos rfl]
  unfold rset
  rw [if_pos rfl]

/-- Storing one more per-field result keeps every stored entry. -/
theorem storedHas_pushField {all : Record (List Batch)} {uid : String} {sd : Batch}
    {ts u' : String} (h : storedHas all ts u') : storedHas (pushField all uid sd) ts u' := by
  obtain ⟨u, arr, sd', harr, hsd', hhas⟩ := h
  induction all with
  | nil => simp at harr
  | cons p rest ih =>
    obtain ⟨k0, arr0⟩ := p
    by_cases hk : k0 = uid
    · subst hk
      rw [pushField_cons_eq]
      rcases List.mem_cons.mp harr with heq | htail
      · have ha : arr = arr0 := congrArg Prod.snd heq
        exact ⟨k0, arr0 ++ [sd], sd', by simp,
          List.mem_append.mpr (Or.inl (ha ▸ hsd')), hhas⟩
      · exact ⟨u, arr, sd', by simp [htail], hsd', hhas⟩
    · rw [pushField_cons_ne hk]
      rcases List.mem_cons.mp harr with heq | htail
      · have ha : arr = arr0 := congrArg Prod.snd heq
        exact ⟨k0, arr0, sd', by simp, ha ▸ hsd', hhas⟩
      · obtain ⟨u2, arr2, sd2, h1, h2, h3⟩ := ih htail
        exact ⟨u2, arr2, sd2, by simp [h1], h2, h3⟩

/-- The freshly stored per-field result is itself stored. -/
theorem storedHas_pushField_self {all : Record (List Batch)} {uid : String} {sd : Batch}
    {ts u' : String} (h : (lookup2 sd ts u').isSome) :
    storedHas (pushField all uid sd) ts u' := by
  refine ⟨uid, _, sd, rset_self_mem _ _ _, ?_, h⟩
  exact List.mem_append.mpr (Or.inr (by simp))

/-- The field loop preserves stored entries. -/
theorem procFields_has_preserve {sname : String} {tc : GField} {ids : List String}
    {since : Option Int} {fl : List GField} {acc : Record (List Batch) × Option Int}
    {ts u' : String} (h : storedHas acc.1 ts u') :
    storedHas (procFields sname tc ids since fl acc).1 ts u' := by
  induction fl generalizing acc with
  | nil => exact h
  | cons vf rest ih =>
    by_cases hc : ids.contains (generateUniqueFieldId vf sname) = true
    · simp only [procFields, hc, if_true]
      apply ih
      by_cases hne : (incrSeriesLoop (generateUniqueFieldId vf sname) since
          (zipPad (tc.values.map jsNum) vf.values) [] acc.2).1 ≠ []
      · rw [if_pos hne]
        exact storedHas_pushField h
      · rw [if_neg hne]
        exact h
    · simp only [procFields, hc, if_false]
      exact ih h

/-- A selected, filter-passing sample of one of the loop's fields ends up
stored by the field loop. -/
theorem procFields_has_add {sname : String} {tc : GField} {ids : List String}
    {since : Option Int} {fl : List GField} {acc : Record (List Batch) × Option Int}
    {vf : GField} {t : Int} {v : JsVal}
    (hvf : vf ∈ fl) (hc : ids.contains (generateUniqueFieldId vf sname) = true)
    (hm : (t, v) ∈ zipPad (tc.values.map jsNum) vf.values)
    (hp : passesSince since t = true) :
    storedHas (procFields sname tc ids since fl acc).1 (formatTimestamp t)
      (generateUniqueFieldId vf sname) := by
  induction fl generalizing acc with
  | nil => simp at hvf
  | cons vf0 rest ih =>
    rcases List.mem_cons.mp hvf with heq | htail
    · subst heq
      simp only [procFields, hc, if_true]
      have hhas := @incrSeriesLoop_has_add (generateUniqueFieldId vf sname) since
        (zipPad (tc.values.map jsNum) vf.values) [] acc.2 _ _ hm hp
      apply procFields_has_preserve
      rw [if_pos (lookup2_isSome_ne_nil hhas)]
      exact storedHas_pushField_self hhas
    · by_cases hc0 : ids.contains (generateUniqueFieldId vf0 sname) = true
      · simp only [procFields, hc0, if_true]
        exact ih htail
      · simp only [procFields, hc0, if_false]
        exact ih htail

/-- The frame loop preserves stored entries. -/
theorem procFrames_has_preserve {ids : List String} {since : Option Int}
    {fl : List GFrame} {acc : Record (List Batch) × Option Int} {ts u' : String}
    (h : storedHas acc.1 ts u') : storedHas (procFrames ids since fl acc).1 ts u' := by
  induction fl generalizing acc with
  | nil => exact h
  | cons s rest ih =>
    cases hfind : s.fields.find? (fun f => f.ftype = "time") with
    | none =>
      simp only [procFrames, hfind]
      exact ih h
    | some tc =>
      simp only [procFrames, hfind]
      exact ih (procFields_has_preserve h)

/-- A selected, filter-passing sample of one of the loop's frames ends up
stored by the frame loop. -/
theorem procFrames_has_add {ids : List String} {since : Option Int}
    {fl : List GFrame} {acc : Record (List Batch) × Option Int}
    {s : GFrame} {tc vf : GField} {t : Int} {v : JsVal}
    (hs : s ∈ fl) (hfind : s.fields.find? (fun f => f.ftype = "time") = some tc)
    (hvf : vf ∈ s.fields.filter (fun f => f.ftype ≠ "time"))
    (hc : ids.contains (generateUniqueFieldId vf s.name) = true)
    (hm : (t, v) ∈ zipPad (tc.values.map jsNum) vf.values)
    (hp : passesSince since t = true) :
    storedHas (procFrames ids since fl acc).1 (formatTimestamp t)
      (generateUniqueFieldId vf s.name) := by
  induction fl generalizing acc with
  | nil => simp at hs
  | cons s0 rest ih =>
    rcases List.mem_cons.mp hs with heq | htail
    · subst heq
      simp only [procFrames, hfind]
      exact procFrames_has_preserve (procFields_has_add hvf hc hm hp)
    · cases hfind0 : s0.fields.find? (fun f => f.ftype = "time") with
      | none =>
        simp only [procFrames, hfind0]
        exact ih htail
      | some tc0 =>
        simp only [procFrames, hfind0]
        exact ih htail

/-- Every selected sample passing the watermark filter is represented in
the incremental batch under its formatted timestamp and identifier. -/
theorem processIncrementalData_includes {frames : List GFrame} {ids : List String}
    {since : Option Int} {uid : String} {t : Int} {v : JsVal}
    (h : sampleIn frames ids uid t v) (hp : passesSince since t = true) :
    (lookup2 (processIncrementalData (some frames) ids since).incrementalData
      (formatTimestamp t) uid).isSome := by
  obtain ⟨s, hs, tc, hfind, vf, hvf, hgid, hc, hm⟩ := h
  unfold processIncrementalData
  have hemp : frames.isEmpty = false := by
    cases frames with
    | nil => simp at hs
    | cons a b => simp
  simp only [hemp]
  simp only [Bool.false_eq_true, if_false]
  subst hgid
  obtain ⟨u, arr, sd, h1, h2, h3⟩ :=
    @procFrames_has_add ids since frames (([], none) : Record (List Batch) × Option Int)
      s tc vf t v hs hfind hvf hc hm hp
  exact restructure_has h1 h2 h3

/-- Every timestamp entry of the batch carries at least one field value. -/
def entriesNonempty (m : Batch) : Prop := ∀ p ∈ m, p.2 ≠ []

/-- No field value anywhere in the batch is the null scalar. -/
def noNullVals (m : Batch) : Prop := ∀ p ∈ m, ∀ q ∈ p.2, q.2 ≠ JsVal.null

/-- Generic invariant over every stored per-field result. -/
def storedAllP (P : Batch → Prop) (all : Record (List Batch)) : Prop :=
  ∀ u arr, (u, arr) ∈ all → ∀ sd ∈ arr, P sd

theorem storedAllP_pushField {P : Batch → Prop} {all : Record (List Batch)}
    {uid : String} {sd : Batch} (hall : storedAllP P all) (hsd : P sd) :
    storedAllP P (pushField all uid sd) := by
  intro u arr harr sd' hsd'
  rcases mem_pushField harr with hold | ⟨hu, hmem⟩
  · exact hall u arr hold sd' hsd'
  · rcases hmem sd' hsd' with hnew | ⟨a, hlk, hin⟩
    · exact hnew ▸ hsd
    · exact hall uid a (rlookup_mem hlk) sd' hin

theorem entriesNonempty_insert {d : Batch} {ft uid : String} {v : JsVal}
    (h : entriesNonempty d) :
    entriesNonempty (rset d ft (rset (rget d ft) uid v)) := by
  intro p hp
  rcases mem_rset hp with hold | ⟨hk, hv⟩
  · exact h p hold
  · rw [hv]
    exact rset_ne_nil _ _ _

theorem noNullVals_insert {d : Batch} {ft uid : String} {v : JsVal}
    (h : noNullVals d) (hv : v ≠ JsVal.null) :
    noNullVals (rset d ft (rset (rget d ft) uid v)) := by
  intro p hp q hq
  rcases mem_rset hp with hold | ⟨hk, hval⟩
  · exact h p hold q hq
  · rw [hval] at hq
    rcases mem_rset hq with hg | ⟨hu, hq'⟩
    · unfold rget at hg
      cases hlk : rlookup d ft with
      | none => rw [hlk] at hg; simp at hg
      | some e0 =>
        rw [hlk] at hg
        exact h (ft, e0) (rlookup_mem hlk) q hg
    · rw [hq']
      exact hv

theorem serializeLoop_good {uniqueId : String} {since istart : Option Int}
    {pairs : List (Int × JsVal)} {d : Batch}
    (h1 : entriesNonempty d) (h2 : noNullVals d) :
    entriesNonempty (serializeLoop uniqueId since istart pairs d) ∧
      noNullVals (serializeLoop uniqueId since istart pairs d) := by
  induction pairs generalizing d with
  | nil => exact ⟨h1, h2⟩
  | cons p rest ih =>
    obtain ⟨t, v⟩ := p
    by_cases hc : passesSince since t = true ∧ passesIntervalStart istart t = true ∧
        v ≠ JsVal.null
    · simp only [serializeLoop, if_pos hc]
      exact ih (entriesNonempty_insert h1) (noNullVals_insert h2 hc.2.2)
    · simp only [serializeLoop, if_neg hc]
      exact ih h1 h2

theorem incrSeriesLoop_entriesNonempty {uid : String} {since : Option Int}
    {pairs : List (Int × JsVal)} {sd : Batch} {lat : Option Int}
    (h : entriesNonempty sd) :
    entriesNonempty (incrSeriesLoop uid since pairs sd lat).1 := by
  induction pairs generalizing sd lat with
  | nil => exact h
  | cons p rest ih =>
    obtain ⟨t, v⟩ := p
    by_cases hp : passesSince since t = true
    · simp only [incrSeriesLoop, hp, if_true]
      exact ih (entriesNonempty_insert h)
    · simp only [incrSeriesLoop, hp, if_false]
      exact ih h

theorem mergeSeriesData_entriesNonempty {comb sd : Batch}
    (h1 : entriesNonempty comb) (h2 : entriesNonempty sd) :
    entriesNonempty (mergeSeriesData comb sd) := by
  induction sd generalizing comb with
  | nil => exact h1
  | cons p rest ih =>
    obtain ⟨ts0, vals0⟩ := p
    simp only [mergeSeriesData]
    apply ih
    · intro q hq
      rcases mem_rset hq with hold | ⟨hk, hv⟩
      · exact h1 q hold
      · rw [hv]
        apply jsAssign_ne_nil
        right
        exact h2 (ts0, vals0) (by simp)
    · intro q hq
      exact h2 q (by simp [hq])

theorem mergeSeriesData_noNullVals {comb sd : Batch}
    (h1 : noNullVals comb) (h2 : noNullVals sd) :
    noNullVals (mergeSeriesData comb sd) := by
  induction sd generalizing comb with
  | nil => exact h1
  | cons p rest ih =>
    obtain ⟨ts0, vals0⟩ := p
    simp only [mergeSeriesData]
    apply ih
    · intro q hq r hr
      rcases mem_rset hq with hold | ⟨hk, hv⟩
      · exact h1 q hold r hr
      · rw [hv] at hr
        rcases mem_jsAssign hr with hg | hg
        · unfold rget at hg
          cases hlk : rlookup comb ts0 with
          | none => rw [hlk] at hg; simp at hg
          | some e0 =>
            rw [hlk] at hg
            exact h1 (ts0, e0) (rlookup_mem hlk) r hg
        · exact h2 (ts0, vals0) (by simp) r hg
    · intro q hq r hr
      exact h2 q (by simp [hq]) r hr

theorem mergeSeriesDataList_entriesNonempty {comb : Batch} {l : List Batch}
    (h1 : entriesNonempty comb) (h2 : ∀ sd ∈ l, entriesNonempty sd) :
    entriesNonempty (mergeSeriesDataList comb l) := by
  induction l generalizing comb with
  | nil => exact h1
  | cons sd rest ih =>
    simp only [mergeSeriesDataList]
    exact ih (mergeSeriesData_entriesNonempty h1 (h2 sd (by simp)))
      (fun sd' h => h2 sd' (by simp [h]))

theorem mergeSeriesDataList_noNullVals {comb : Batch} {l : List Batch}
    (h1 : noNullVals comb) (h2 : ∀ sd ∈ l, noNullVals sd) :
    noNullVals (mergeSeriesDataList comb l) := by
  induction l generalizing comb with
  | nil => exact h1
  | cons sd rest ih =>
    simp only [mergeSeriesDataList]
    exact ih (mergeSeriesData_noNullVals h1 (h2 sd (by simp)))
      (fun sd' h => h2 sd' (by simp [h]))

theorem restructureFold_entriesNonempty {comb : Batch} {all : Record (List Batch)}
    (h1 : entriesNonempty comb) (h2 : storedAllP entriesNonempty all) :
    entriesNonempty (restructureFold comb all) := by
  induction all generalizing comb with
  | nil => exact h1
  | cons p rest ih =>
    obtain ⟨u0, arr0⟩ := p
    simp only [restructureFold]
    apply ih
    · exact mergeSeriesDataList_entriesNonempty h1 (fun sd h => h2 u0 arr0 (by simp) sd h)
    · intro u arr harr sd hsd
      exact h2 u arr (by simp [harr]) sd hsd

theorem restructureFold_noNullVals {comb : Batch} {all : Record (List Batch)}
    (h1 : noNullVals comb) (h2 : storedAllP noNullVals all) :
    noNullVals (restructureFold comb all) := by
  induction all generalizing comb with
  | nil => exact h1
  | cons p rest ih =>
    obtain ⟨u0, arr0⟩ := p
    simp only [restructureFold]
    apply ih
    · exact mergeSeriesDataList_noNullVals h1 (fun sd h => h2 u0 arr0 (by simp) sd h)
    · intro u arr harr sd hsd
      exact h2 u arr (by simp [harr]) sd hsd

theorem entriesNonempty_nil : entriesNonempty [] := by
  intro p hp; simp at hp

theorem noNullVals_nil : noNullVals [] := by
  intro p hp; simp at hp

theorem procFields_stored_entriesNonempty {sname : String} {tc : GField}
    {ids : List String} {since : Option Int} {fl : List GField}
    {acc : Record (List Batch) × Option Int}
    (h : storedAllP entriesNonempty acc.1) :
    storedAllP entriesNonempty (procFields sname tc ids since fl acc).1 := by
  induction fl generalizing acc with
  | nil => exact h
  | cons vf rest ih =>
    by_cases hc : ids.contains (generateUniqueFieldId vf sname) = true
    · simp only [procFields, hc, if_true]
      apply ih
      by_cases hne : (incrSeriesLoop (generateUniqueFieldId vf sname) since
          (zipPad (tc.values.map jsNum) vf.values) [] acc.2).1 ≠ []
      · rw [if_pos hne]
        exact storedAllP_pushField h (incrSeriesLoop_entriesNonempty entriesNonempty_nil)
      · rw [if_neg hne]
        exact h
    · simp only [procFields, hc, if_false]
      exact ih h

theorem procFrames_stored_entriesNonempty {ids : List String} {since : Option Int}
    {fl : List GFrame} {acc : Record (List Batch) × Option Int}
    (h : storedAllP entriesNonempty acc.1) :
    storedAllP entriesNonempty (procFrames ids since fl acc).1 := by
  induction fl generalizing acc with
  | nil => exact h
  | cons s rest ih =>
    cases hfind : s.fields.find? (fun f => f.ftype = "time") with
    | none =>
      simp only [procFrames, hfind]
      exact ih h
    | some tc =>
      simp only [procFrames, hfind]
      exact ih (procFields_stored_entriesNonempty h)

/-- Every entry of the incremental batch holds at least one field value. -/
theorem processIncrementalData_entriesNonempty (data : Option (List GFrame))
    (ids : List String) (since : Option Int) :
    entriesNonempty (processIncrementalData data ids since).incrementalData := by
  unfold processIncrementalData
  cases data with
  | none => exact entriesNonempty_nil
  | some series =>
    by_cases hemp : series.isEmpty
    · simp only [hemp, if_true]
      exact entriesNonempty_nil
    · simp only [hemp, if_false]
      exact restructureFold_entriesNonempty entriesNonempty_nil
        (procFrames_stored_entriesNonempty (fun u arr h => by simp at h))

/-- The windowed per-field serialization yields a batch with non-empty,
null-free entries. -/
theorem serializeDataForMultiplePanels_good (series : GFrame) (uniqueId : String)
    (fromV toV : Int) (since ap : Option Int) :
    entriesNonempty (serializeDataForMultiplePanels series uniqueId fromV toV since ap).1 ∧
      noNullVals (serializeDataForMultiplePanels series uniqueId fromV toV since ap).1 := by
  unfold serializeDataForMultiplePanels
  split
  · exact ⟨entriesNonempty_nil, noNullVals_nil⟩
  · split
    · exact ⟨entriesNonempty_nil, noNullVals_nil⟩
    · dsimp only
      split
      · exact ⟨entriesNonempty_nil, noNullVals_nil⟩
      · exact serializeLoop_good entriesNonempty_nil noNullVals_nil

theorem logFields_stored_good {seriesFrame : GFrame} {ids : List String}
    {fromV toV : Int} {since ap : Option Int} {fl : List GField}
    {acc : Record (List Batch) × Option Int}
    (h : storedAllP (fun sd => entriesNonempty sd ∧ noNullVals sd) acc.1) :
    storedAllP (fun sd => entriesNonempty sd ∧ noNullVals sd)
      (logFields seriesFrame ids fromV toV since ap fl acc).1 := by
  induction fl generalizing acc with
  | nil => exact h
  | cons vf rest ih =>
    by_cases hc : generateUniqueFieldId vf seriesFrame.name ≠ "" ∧
        ids.contains (generateUniqueFieldId vf seriesFrame.name) = true
    · simp only [logFields, if_pos hc]
      apply ih
      by_cases hne : (serializeDataForMultiplePanels seriesFrame
          (generateUniqueFieldId vf seriesFrame.name) fromV toV since ap).1 ≠ []
      · rw [if_pos hne]
        exact storedAllP_pushField h (serializeDataForMultiplePanels_good _ _ _ _ _ _)
      · rw [if_neg hne]
        exact h
    · simp only [logFields, if_neg hc]
      exact ih h

theorem logFrames_stored_good {ids : List String} {fromV toV : Int}
    {since ap : Option Int} {fl : List GFrame} {acc : Record (List Batch) × Option Int}
    (h : storedAllP (fun sd => entriesNonempty sd ∧ noNullVals sd) acc.1) :
    storedAllP (fun sd => entriesNonempty sd ∧ noNullVals sd)
      (logFrames ids fromV toV since ap fl acc).1 := by
  induction fl generalizing acc with
  | nil => exact h
  | cons s rest ih =>
    simp only [logFrames]
    exact ih (logFields_stored_good h)

/-- The windowed manual-send batch has non-empty entries and no null
values. -/
theorem logPanelData_good (data : Option (List GFrame)) (includePanel : Bool)
    (ids : List String) (timeRange : Int × Int) (rtype : String) (rel : String)
    (abs : Int × Int) (now : Int) (since ap : Option Int) (r : LogPanelResult)
    (h : logPanelData data includePanel ids timeRange rtype rel abs now since ap = some r) :
    entriesNonempty r.data ∧ noNullVals r.data := by
  unfold logPanelData at h
  split at h
  · cases h
  · split at h
    · cases h
    · rename_i series hg
      have hr : r.data = restructurePanelData
          (logFrames ids (resolveTimeRange rtype timeRange rel abs now).1
            (resolveTimeRange rtype timeRange rel abs now).2 since ap series ([], none)).1 := by
        cases h.symm
        rfl
      rw [hr]
      have hstored := @logFrames_stored_good ids
        (resolveTimeRange rtype timeRange rel abs now).1
        (resolveTimeRange rtype timeRange rel abs now).2
        since ap series (([], none) : Record (List Batch) × Option Int)
        (fun u arr h => by simp at h)
      constructor
      · exact restructureFold_entriesNonempty entriesNonempty_nil
          (fun u arr ha sd hs => (hstored u arr ha sd hs).1)
      · exact restructureFold_noNullVals noNullVals_nil
          (fun u arr ha sd hs => (hstored u arr ha sd hs).2)

/- ------------------------------------------------------------------
Window selector characterization. ------------------------------------------------------------------ -/

theorem maxLoop_some_eq_foldl (l : List Int) (a : Int) :
    maxLoop l (some a) = some (l.foldl max a) := by
  induction l generalizing a with
  | nil => rfl
  | cons t rest ih =>
    simp only [maxLoop]
    have hm : (if t > a then some t else some a) = some (max a t) := by
      rcases le_or_lt t a with h | h
      · rw [if_neg (by omega), max_eq_left h]
      · rw [if_pos h, max_eq_right (le_of_lt h)]
    show maxLoop rest (if t > a then some t else some a) = _
    rw [hm, ih (max a t)]
    rfl

/-- The running-maximum loop computes `List.max?`. -/
theorem maxLoop_eq_max? (l : List Int) : maxLoop l none = l.max? := by
  cases l with
  | nil => rfl
  | cons t rest =>
    show maxLoop rest (some t) = _
    rw [maxLoop_some_eq_foldl]
    rfl

theorem findIdxJS_eq_none_iff (p : Int → Bool) (l : List Int) :
    findIdxJS p l = none ↔ ∀ x ∈ l, ¬ p x = true := by
  induction l with
  | nil => simp [findIdxJS]
  | cons t rest ih =>
    by_cases hp : p t = true
    · simp [findIdxJS, hp]
    · simp [findIdxJS, hp, ih]

theorem getD_map_succ (X : Option Nat) (n : Nat) :
    (X.map (· + 1)).getD (n + 1) = X.getD n + 1 := by
  cases X <;> rfl

/-- Under the sortedness precondition, the index window `[start, stop)`
selects exactly the samples with `from <= t <= to`. -/
theorem windowSeg_eq_filter {times : List Int} {fromV toV : Int}
    (hs : List.Sorted (· ≤ ·) times) :
    windowSeg times fromV toV =
      times.filter (fun t => decide (fromV ≤ t ∧ t ≤ toV)) := by
  induction times with
  | nil => rfl
  | cons t rest ih =>
    obtain ⟨hhead, hrest⟩ := List.sorted_cons.mp hs
    have hlen : (t :: rest).length = rest.length + 1 := rfl
    by_cases hf : fromV ≤ t
    · have hstart : findIdxJS (fun x => decide (fromV ≤ x)) (t :: rest) = some 0 := by
        simp [findIdxJS, hf]
      by_cases ht : toV < t
      · have hstop : findIdxJS (fun x => decide (toV < x)) (t :: rest) = some 0 := by
          simp [findIdxJS, ht]
        have hfil : List.filter (fun x => decide (fromV ≤ x ∧ x ≤ toV)) (t :: rest) = [] := by
          rw [List.filter_eq_nil_iff]
          intro a ha
          rcases List.mem_cons.mp ha with h | h
          · subst h; simp; omega
          · have := hhead a h
            simp
            omega
        unfold windowSeg
        rw [hstart, hstop, hfil]
        rfl
      · push_neg at ht
        have hstop : findIdxJS (fun x => decide (toV < x)) (t :: rest) =
            (findIdxJS (fun x => decide (toV < x)) rest).map (· + 1) := by
          have : ¬ toV < t := by omega
          simp [findIdxJS, this]
        have hfil : List.filter (fun x => decide (fromV ≤ x ∧ x ≤ toV)) (t :: rest) =
            t :: List.filter (fun x => decide (fromV ≤ x ∧ x ≤ toV)) rest :=
          List.filter_cons_of_pos (by simp; exact ⟨hf, ht⟩)
        unfold windowSeg
        rw [hstart, hstop, hfil]
        dsimp only
        rw [hlen, getD_map_succ, Nat.sub_zero, List.drop_zero, List.take_succ_cons]
        congr 1
        cases rest with
        | nil => rfl
        | cons r rest2 =>
          have hfr : fromV ≤ r := le_trans hf (hhead r (by simp))
          have hstart2 : findIdxJS (fun x => decide (fromV ≤ x)) (r :: rest2) = some 0 := by
            simp [findIdxJS, hfr]
          have hseg := ih hrest
          unfold windowSeg at hseg
          rw [hstart2] at hseg
          dsimp only at hseg
          rw [Nat.sub_zero, List.drop_zero] at hseg
          exact hseg
    · have hstart : findIdxJS (fun x => decide (fromV ≤ x)) (t :: rest) =
          (findIdxJS (fun x => decide (fromV ≤ x)) rest).map (· + 1) := by
        simp [findIdxJS, hf]
      have hfil : List.filter (fun x => decide (fromV ≤ x ∧ x ≤ toV)) (t :: rest) =
          List.filter (fun x => decide (fromV ≤ x ∧ x ≤ toV)) rest :=
        List.filter_cons_of_neg (by simp; intro h; omega)
      rw [hfil]
      cases hidx : findIdxJS (fun x => decide (fromV ≤ x)) rest with
      | none =>
        have hallr : ∀ x ∈ rest, ¬ fromV ≤ x := by
          intro x hx
          have := (findIdxJS_eq_none_iff _ _).mp hidx x hx
          simpa using this
        have hfil2 : List.filter (fun x => decide (fromV ≤ x ∧ x ≤ toV)) rest = [] := by
          rw [List.filter_eq_nil_iff]
          intro a ha
          have := hallr a ha
          simp
          omega
        unfold windowSeg
        rw [hstart, hidx, hfil2]
        rfl
      | some k =>
        by_cases ht : toV < t
        · have hstop : findIdxJS (fun x => decide (toV < x)) (t :: rest) = some 0 := by
            simp [findIdxJS, ht]
          have hfil2 : List.filter (fun x => decide (fromV ≤ x ∧ x ≤ toV)) rest = [] := by
            rw [List.filter_eq_nil_iff]
            intro a ha
            have := hhead a ha
            simp
            omega
          unfold windowSeg
          rw [hstart, hidx, hstop, hfil2]
          simp [Nat.zero_sub]
        · push_neg at ht
          have hstop : findIdxJS (fun x => decide (toV < x)) (t :: rest) =
              (findIdxJS (fun x => decide (toV < x)) rest).map (· + 1) := by
            have : ¬ toV < t := by omega
            simp [findIdxJS, this]
          unfold windowSeg
          rw [hstart, hidx, hstop]
          show List.take
              (((findIdxJS (fun x => decide (toV < x)) rest).map (· + 1)).getD
                (t :: rest).length - (k + 1))
              (List.drop (k + 1) (t :: rest)) =
            List.filter (fun x => decide (fromV ≤ x ∧ x ≤ toV)) rest
          rw [hlen, getD_map_succ, Nat.add_sub_add_right]
          have hseg := ih hrest
          unfold windowSeg at hseg
          rw [hidx] at hseg
          dsimp only at hseg
          exact hseg

/-- The returned window maximum does not depend on the `since` watermark
or the `autoPromptInterval` sliding floor (those filter only the batch,
after the maximum has been computed). -/
theorem serialize_latest_filter_independent (series : GFrame) (uniqueId : String)
    (fromV toV : Int) (since ap : Option Int) :
    (serializeDataForMultiplePanels series uniqueId fromV toV since ap).2 =
      (serializeDataForMultiplePanels series uniqueId fromV toV none none).2 := by
  unfold serializeDataForMultiplePanels
  cases series.fields.find? (fun f => f.ftype = "time") with
  | none => rfl
  | some tc =>
    cases series.fields.find? (fun f => f.name = uniqueId) with
    | none => rfl
    | some vf =>
      dsimp only
      cases findIdxJS (fun t => decide (fromV ≤ t)) (tc.values.map jsNum) with
      | none => rfl
      | some start => rfl

/-- With the sortedness precondition and both columns found, the returned
latest timestamp is the maximum over all samples inside `[from, to]`,
regardless of the `since`/`intervalStart` filters. -/
theorem serialize_latest_eq_window_max (series : GFrame) (uniqueId : String)
    (fromV toV : Int) (since ap : Option Int) (tc vf : GField)
    (htc : series.fields.find? (fun f => f.ftype = "time") = some tc)
    (hvf : series.fields.find? (fun f => f.name = uniqueId) = some vf)
    (hs : List.Sorted (· ≤ ·) (tc.values.map jsNum)) :
    (serializeDataForMultiplePanels series uniqueId fromV toV since ap).2 =
      ((tc.values.map jsNum).filter (fun t => decide (fromV ≤ t ∧ t ≤ toV))).max? := by
  unfold serializeDataForMultiplePanels
  rw [htc, hvf]
  dsimp only
  cases hidx : findIdxJS (fun t => decide (fromV ≤ t)) (tc.values.map jsNum) with
  | none =>
    have hall : ∀ x ∈ tc.values.map jsNum, ¬ fromV ≤ x := by
      intro x hx
      have := (findIdxJS_eq_none_iff _ _).mp hidx x hx
      simpa using this
    have hfil : (tc.values.map jsNum).filter (fun t => decide (fromV ≤ t ∧ t ≤ toV)) = [] := by
      rw [List.filter_eq_nil_iff]
      intro a ha
      have := hall a ha
      simp
      omega
    rw [hfil]
    rfl
  | some start =>
    show maxLoop (windowSeg (tc.values.map jsNum) fromV toV) none = _
    rw [maxLoop_eq_max?, windowSeg_eq_filter hs]

/-- When no sample lies at or after the window start, the serialization
returns an empty batch and a null timestamp. -/
theorem serialize_empty_when_no_start (series : GFrame) (uniqueId : String)
    (fromV toV : Int) (since ap : Option Int) (tc : GField)
    (htc : series.fields.find? (fun f => f.ftype = "time") = some tc)
    (hall : ∀ x ∈ tc.values.map jsNum, x < fromV) :
    serializeDataForMultiplePanels series uniqueId fromV toV since ap = ([], none) := by
  unfold serializeDataForMultiplePanels
  rw [htc]
  cases series.fields.find? (fun f => f.name = uniqueId) with
  | none => rfl
  | some vf =>
    have hidx : findIdxJS (fun t => decide (fromV ≤ t)) (tc.values.map jsNum) = none := by
      rw [findIdxJS_eq_none_iff]
      intro x hx
      have := hall x hx
      simp
      omega
    dsimp only
    rw [hidx]

/- ------------------------------------------------------------------
Concrete data used by witnesses and counterexamples. ------------------------------------------------------------------ -/

/-- A time column with samples at 900s, 1100s and 1200s (epoch ms). -/
def exTimeField : GField :=
  ⟨"Time", "time", [], none, [JsVal.num 900000, JsVal.num 1100000, JsVal.num 1200000]⟩

/-- A value field named `temp_A` with three numeric samples. -/
def exTempField : GField :=
  ⟨"temp_A", "number", [], none, [JsVal.num 1, JsVal.num 2, JsVal.num 3]⟩

/-- One frame combining the two fields above. -/
def exFrame : GFrame := ⟨"", [exTimeField, exTempField]⟩

/-- A frame whose only post-watermark sample carries a null value. -/
def exNullFrame : GFrame :=
  ⟨"", [⟨"Time", "time", [], none, [JsVal.num 2000000]⟩,
        ⟨"temp_A", "number", [], none, [JsVal.null]⟩]⟩

/-- A frame with one sample at t = 500s, value 7. -/
def exEarlyFrame : GFrame :=
  ⟨"", [⟨"Time", "time", [], none, [JsVal.num 500000]⟩,
        ⟨"temp_A", "number", [], none, [JsVal.num 7]⟩]⟩

/-- A configuration with auto-update on, panel data on, `temp_A` selected
and forwarding off. -/
def exCfgAuto : PanelConfig :=
  ⟨true, false, true, false, ["temp_A"], "dashboard", "5m", (0, 0), none, none, none⟩

/-- A configuration with auto-update and forwarding on and a control
endpoint configured. -/
def exCfgFwd : PanelConfig :=
  ⟨true, true, true, false, ["temp_A"], "dashboard", "5m", (0, 0),
    some "http://ctl", none, none⟩

/-- A manual-mode configuration (auto-update off, panel data on). -/
def exCfgManual : PanelConfig :=
  ⟨false, false, true, false, ["temp_A"], "dashboard", "5m", (0, 0), none, none, none⟩

/-- An idle panel state with watermark 1000s. -/
def exStateIdle : PanelState := ⟨"", false, none, "", some 1000000, false, []⟩

/-- An in-flight panel state with a queued ad-hoc prompt. -/
def exStatePending : PanelState := ⟨"", false, none, "keep me", some 1000000, true, []⟩

/-- A manual-mode state with watermark 1200s and a typed prompt. -/
def exStateManual : PanelState := ⟨"hi", false, none, "", some 1200000, false, []⟩

/- ------------------------------------------------------------------
Claim theorems. ------------------------------------------------------------------ -/

/-- C1 (code behaviour at the claim's inputs): the extraction chain
degenerates to strategy 1 with a fallback directly to strategy 4,
because the catch re-parses the same string that just failed to parse —
strategies 2 and 3 are unreachable.  Consequently the input
`'{"llmResponse":"[3,4]"}'` is parsed by strategy 1 into an object
(not `[3,4]` via strategy 2) and the forwarder rejects it with the
array-validation error, while the fenced input `"```json\n[1,2]\n```"`
does extract `[1,2]` via strategy 4. -/
theorem c1_extraction_chain_degenerate :
    (∀ content, extractPayload content =
      match jsonParse content with
      | some p => some p
      | none =>
        match matchJsonCodeBlock content with
        | some block => jsonParse (jsTrim block)
        | none => none) ∧
    extractPayload "\x7b\"llmResponse\":\"[3,4]\"\x7d" =
      some (Json.obj [("llmResponse", Json.str "[3,4]")]) ∧
    forwardPrepare "\x7b\"llmResponse\":\"[3,4]\"\x7d" "http://e" "POST" "" =
      Except.error ForwardError.validation ∧
    (forwardPrepare "```json\n[1,2]\n```" "http://e" "POST" "").map PreparedRequest.body =
      Except.ok "[1,2]" := by
  refine ⟨?_, rfl, rfl, rfl⟩
  intro content
  unfold extractPayload
  cases h : jsonParse content with
  | some p => rfl
  | none => rfl

/-- C8 counterexample: the content `"0"` is syntactically valid JSON, is
extracted successfully, and is not an array, yet the forwarder reports
the extraction-failure error rather than the validation error, because
the `if (parsedPayload)` truthiness gate treats the number 0 as absent. -/
theorem c8_counterexample :
    extractPayload "0" = some (Json.num "0") ∧
    forwardPrepare "0" "http://e" "POST" "" = Except.error ForwardError.extraction ∧
    (Except.error ForwardError.extraction : Except ForwardError PreparedRequest) ≠
      Except.error ForwardError.validation := by
  refine ⟨rfl, rfl, by simp⟩

/-- C8 (amended): for `POST`/`PUT`, whenever the extracted value is truthy
and not an array the forwarder fails with the validation error before
anything is sent (the error return precedes the `fetch`); in particular
`{"a":1}` is rejected with the validation error while `[1,2]` is
accepted with body `[1,2]`.  (A falsy extracted value — `0`, `false`,
`null`, `""` — is instead reported as an extraction failure.) -/
theorem c8_nonarray_validation (content url headersString method : String) (p : Json)
    (hm : method = "POST" ∨ method = "PUT")
    (hex : extractPayload content = some p)
    (htr : p.truthy = true) (har : p.isArray = false) :
    forwardPrepare content url method headersString = Except.error ForwardError.validation ∧
    forwardPrepare "\x7b\"a\":1\x7d" "http://e" "POST" "" = Except.error ForwardError.validation ∧
    (forwardPrepare "[1,2]" "http://e" "POST" "").map PreparedRequest.body =
      Except.ok "[1,2]" := by
  refine ⟨?_, rfl, rfl⟩
  unfold forwardPrepare
  rw [if_pos hm, hex]
  dsimp only
  rw [htr]
  rw [if_pos rfl]
  cases p with
  | arr xs => simp [Json.isArray] at har
  | null => rfl
  | bool b => rfl
  | num lit => rfl
  | str s => rfl
  | obj fs => rfl

/-- Witness for the amended C8 theorem at the object input `{"a":1}`. -/
theorem c8_nonarray_validation_witness :
    forwardPrepare "\x7b\"a\":1\x7d" "http://e" "POST" "" = Except.error ForwardError.validation :=
  (c8_nonarray_validation "\x7b\"a\":1\x7d" "http://e" "" "POST"
    (Json.obj [("a", Json.num "1")]) (Or.inl rfl) rfl rfl rfl).1

/-- C4: every value in the incremental diff batch computed against
watermark `w` originates in a selected sample with timestamp strictly
greater than `w` (so no sample with `timestamp <= w` is in the batch),
and with a null watermark every selected sample is represented in the
batch under its formatted timestamp and field identifier. -/
theorem c4_diff_respects_watermark (frames : List GFrame) (ids : List String) (w : Int)
    (ts uid : String) (v : JsVal) (uid' : String) (t : Int) (v' : JsVal) :
    (lookup2 (processIncrementalData (some frames) ids (some w)).incrementalData ts uid =
        some v →
      ∃ t0, sampleIn frames ids uid t0 v ∧ w < t0 ∧ formatTimestamp t0 = ts) ∧
    (sampleIn frames ids uid' t v' →
      (lookup2 (processIncrementalData (some frames) ids none).incrementalData
        (formatTimestamp t) uid').isSome) := by
  constructor
  · intro h
    obtain ⟨t0, hsamp, hpass, hft⟩ := processIncrementalData_origin h
    refine ⟨t0, hsamp, ?_, hft⟩
    simpa [passesSince] using hpass
  · intro h
    exact processIncrementalData_includes h rfl

/-- Witness for C4 at the spec's end-to-end example: watermark 1000s,
samples at 900s/1100s/1200s; the batch value 2 at the 1100s key comes
from a sample strictly newer than the watermark. -/
theorem c4_diff_respects_watermark_witness :
    ∃ t0, sampleIn [exFrame] ["temp_A"] "temp_A" t0 (JsVal.num 2) ∧ 1000000 < t0 ∧
      formatTimestamp t0 = "1970-01-01 00:18:20" :=
  (c4_diff_respects_watermark [exFrame] ["temp_A"] 1000000 "1970-01-01 00:18:20"
    "temp_A" (JsVal.num 2) "temp_A" 0 JsVal.null).1 (by decide)

/-- C2 counterexample: a null sample value arriving after the watermark is
stored in the incremental diff batch, violating the claimed batch
invariant that null/undefined values are never included. -/
theorem c2_counterexample :
    lookup2 (processIncrementalData (some [exNullFrame]) ["temp_A"]
        (some 1000000)).incrementalData
      (formatTimestamp 2000000) "temp_A" = some JsVal.null := by
  decide

/-- C2 (amended): the windowed manual-send batch satisfies the full batch
invariant — every timestamp entry has at least one field value and no
value is null — while the incremental diff batch satisfies the
non-empty-entries half but does include null values that pass the
watermark filter (its collection loop has no null check). -/
theorem c2_batch_invariant (data : Option (List GFrame)) (includePanel : Bool)
    (ids : List String) (timeRange : Int × Int) (rtype rel : String) (abs : Int × Int)
    (now : Int) (since ap : Option Int) (r : LogPanelResult) (since' : Option Int)
    (p : String × Record JsVal) (q : String × JsVal) :
    (logPanelData data includePanel ids timeRange rtype rel abs now since ap = some r →
      (p ∈ r.data → p.2 ≠ [] ∧ (q ∈ p.2 → q.2 ≠ JsVal.null))) ∧
    (p ∈ (processIncrementalData data ids since').incrementalData → p.2 ≠ []) := by
  constructor
  · intro hlog hp
    have hgood := logPanelData_good data includePanel ids timeRange rtype rel abs now
      since ap r hlog
    exact ⟨hgood.1 p hp, fun hq => hgood.2 p hp q hq⟩
  · intro hp
    exact processIncrementalData_entriesNonempty data ids since' p hp

/-- Witness for the amended C2 theorem: the manual-send batch over the
example frame has a non-empty, null-free entry at the 1100s key. -/
theorem c2_batch_invariant_witness :
    ("1970-01-01 00:18:20", [("temp_A", JsVal.num 2)]).2 ≠ ([] : Record JsVal) ∧
      (("temp_A", JsVal.num 2) ∈ [("temp_A", JsVal.num 2)] →
        ("temp_A", JsVal.num 2).2 ≠ JsVal.null) :=
  (c2_batch_invariant (some [exFrame]) true ["temp_A"] (0, 2000000) "dashboard" "5m"
    (0, 0) 0 none none
    ⟨[("1970-01-01 00:15:00", [("temp_A", JsVal.num 1)]),
      ("1970-01-01 00:18:20", [("temp_A", JsVal.num 2)]),
      ("1970-01-01 00:20:00", [("temp_A", JsVal.num 3)])], (0, 2000000), some 1200000⟩
    none ("1970-01-01 00:18:20", [("temp_A", JsVal.num 2)]) ("temp_A", JsVal.num 2)).1
    (by decide) (by decide)

/-- C9: the window selector's returned latest timestamp ignores the
`since`/`intervalStart` filters entirely; with sorted times it is the
maximum over all samples inside the resolved `[from, to]` window; and
when no sample reaches the window start the result is the empty batch
with a null timestamp. -/
theorem c9_window_selector_latest (series : GFrame) (uniqueId : String)
    (fromV toV : Int) (since ap : Option Int) (tc vf : GField) :
    ((serializeDataForMultiplePanels series uniqueId fromV toV since ap).2 =
      (serializeDataForMultiplePanels series uniqueId fromV toV none none).2) ∧
    (series.fields.find? (fun f => f.ftype = "time") = some tc →
      series.fields.find? (fun f => f.name = uniqueId) = some vf →
      List.Sorted (· ≤ ·) (tc.values.map jsNum) →
      (serializeDataForMultiplePanels series uniqueId fromV toV since ap).2 =
        ((tc.values.map jsNum).filter (fun t => decide (fromV ≤ t ∧ t ≤ toV))).max?) ∧
    (series.fields.find? (fun f => f.ftype = "time") = some tc →
      (∀ x ∈ tc.values.map jsNum, x < fromV) →
      serializeDataForMultiplePanels series uniqueId fromV toV since ap = ([], none)) := by
  refine ⟨serialize_latest_filter_independent series uniqueId fromV toV since ap, ?_, ?_⟩
  · intro htc hvf hs
    exact serialize_latest_eq_window_max series uniqueId fromV toV since ap tc vf htc hvf hs
  · intro htc hall
    exact serialize_empty_when_no_start series uniqueId fromV toV since ap tc htc hall

/-- Witness for C9: over the null-valued frame, every sample is excluded
from the batch by the null filter, yet the returned latest timestamp is
the window maximum 2000s. -/
theorem c9_window_selector_latest_witness :
    (serializeDataForMultiplePanels exNullFrame "temp_A" 0 3000000 (some 1000000) none).2 =
      (((⟨"Time", "time", [], none, [JsVal.num 2000000]⟩ :
          GField).values.map jsNum).filter (fun t => decide (0 ≤ t ∧ t ≤ 3000000))).max? :=
  ((c9_window_selector_latest exNullFrame "temp_A" 0 3000000 (some 1000000) none
    ⟨"Time", "time", [], none, [JsVal.num 2000000]⟩
    ⟨"temp_A", "number", [], none, [JsVal.null]⟩).2.1 (by decide) (by decide) (by decide))

/-- A tick that arrives while a cycle is in flight is dropped with no
side effects. -/
theorem autoUpdateTick_noop_inflight (cfg : PanelConfig) (s : PanelState)
    (data : Option (List GFrame)) (h : s.isProcessing = true) :
    autoUpdateTick cfg s data = (s, none) := by
  unfold autoUpdateTick
  rw [if_pos (Or.inr (Or.inr (Or.inr (Or.inr h))))]

/-- A tick that issues a model call has set the in-flight flag. -/
theorem autoUpdateTick_isProcessing_of_fire {cfg : PanelConfig} {s : PanelState}
    {data : Option (List GFrame)} {x : Batch × Int}
    (h : (autoUpdateTick cfg s data).2 = some x) :
    (autoUpdateTick cfg s data).1.isProcessing = true := by
  unfold autoUpdateTick at h ⊢
  split at h
  · cases h
  · rename_i hguard
    rw [if_neg hguard]
    dsimp only at h ⊢
    split at h
    · cases h
    · rename_i nl hnl
      split at h
      · rename_i hne
        first
        | rfl
        | rw [if_pos hne]
      · cases h

/-- C5: when an auto-update tick issues a model call, it sets the in-flight
flag, and any further tick arriving before the call resolves (with any
refreshed data) leaves the state unchanged and issues no call — so two
refresh events before resolution produce exactly one model call. -/
theorem c5_single_flight (cfg : PanelConfig) (s : PanelState)
    (data data' : Option (List GFrame)) (x : Batch × Int)
    (h : (autoUpdateTick cfg s data).2 = some x) :
    (autoUpdateTick cfg s data).1.isProcessing = true ∧
    autoUpdateTick cfg (autoUpdateTick cfg s data).1 data' =
      ((autoUpdateTick cfg s data).1, none) := by
  have hproc := autoUpdateTick_isProcessing_of_fire h
  exact ⟨hproc, autoUpdateTick_noop_inflight cfg _ data' hproc⟩

/-- Witness for C5: the example tick fires at watermark 1000s, and the
in-flight flag blocks a second tick over the same data. -/
theorem c5_single_flight_witness :
    (autoUpdateTick exCfgAuto exStateIdle (some [exFrame])).1.isProcessing = true ∧
    autoUpdateTick exCfgAuto (autoUpdateTick exCfgAuto exStateIdle (some [exFrame])).1
        (some [exFrame]) =
      ((autoUpdateTick exCfgAuto exStateIdle (some [exFrame])).1, none) :=
  c5_single_flight exCfgAuto exStateIdle (some [exFrame]) (some [exFrame])
    ([("1970-01-01 00:18:20", [("temp_A", JsVal.num 2)]),
      ("1970-01-01 00:20:00", [("temp_A", JsVal.num 3)])], 1200000) (by decide)

/-- C6: each failed guard of the auto-update effect — null watermark,
auto-update disabled, panel data excluded, no field selected, or an
in-flight cycle — makes the tick a complete no-op: no model call and no
state change. -/
theorem c6_auto_update_guard (cfg : PanelConfig) (s : PanelState)
    (data : Option (List GFrame)) :
    (s.lastSentTimestamp = none → autoUpdateTick cfg s data = (s, none)) ∧
    (cfg.isAutoUpdateEnabled = false → autoUpdateTick cfg s data = (s, none)) ∧
    (cfg.includePanel = false → autoUpdateTick cfg s data = (s, none)) ∧
    (cfg.selectedFieldIds = [] → autoUpdateTick cfg s data = (s, none)) ∧
    (s.isProcessing = true → autoUpdateTick cfg s data = (s, none)) := by
  refine ⟨fun h => ?_, fun h => ?_, fun h => ?_, fun h => ?_,
    fun h => autoUpdateTick_noop_inflight cfg s data h⟩ <;>
    unfold autoUpdateTick
  · rw [if_pos (Or.inr (Or.inr (Or.inr (Or.inl h))))]
  · rw [if_pos (Or.inl (by simp [h]))]
  · rw [if_pos (Or.inr (Or.inl (by simp [h])))]
  · rw [if_pos (Or.inr (Or.inr (Or.inl h)))]

/-- Witness for C6: with a null watermark the tick over fresh data does
nothing. -/
theorem c6_auto_update_guard_witness :
    autoUpdateTick exCfgAuto ⟨"", false, none, "", none, false, []⟩ (some [exFrame]) =
      (⟨"", false, none, "", none, false, []⟩, none) :=
  (c6_auto_update_guard exCfgAuto ⟨"", false, none, "", none, false, []⟩
    (some [exFrame])).1 rfl

/-- C10: while auto-update is enabled, a manual submit only stores the
typed prompt as the pending ad-hoc prompt and clears the input box; the
transcript, watermark, in-flight flag, loading flag and error slot are
untouched and no model call is issued. -/
theorem c10_manual_submit_while_auto (cfg : PanelConfig) (s : PanelState)
    (data : Option (List GFrame)) (timeRange : Int × Int) (now nowMs : Int)
    (scr : Option String) (mr : Except String ChatResponseData)
    (h : cfg.isAutoUpdateEnabled = true) :
    handleSubmit cfg s data timeRange now nowMs scr mr =
      ({ s with pendingAutoPrompt := s.prompt, prompt := "" }, false) ∧
    (handleSubmit cfg s data timeRange now nowMs scr mr).1.chatHistory = s.chatHistory ∧
    (handleSubmit cfg s data timeRange now nowMs scr mr).1.lastSentTimestamp =
      s.lastSentTimestamp ∧
    (handleSubmit cfg s data timeRange now nowMs scr mr).1.isProcessing = s.isProcessing ∧
    (handleSubmit cfg s data timeRange now nowMs scr mr).1.loading = s.loading ∧
    (handleSubmit cfg s data timeRange now nowMs scr mr).1.error = s.error ∧
    (handleSubmit cfg s data timeRange now nowMs scr mr).1.pendingAutoPrompt = s.prompt ∧
    (handleSubmit cfg s data timeRange now nowMs scr mr).2 = false := by
  have hmain : handleSubmit cfg s data timeRange now nowMs scr mr =
      ({ s with pendingAutoPrompt := s.prompt, prompt := "" }, false) := by
    unfold handleSubmit
    rw [if_pos h]
  refine ⟨hmain, ?_, ?_, ?_, ?_, ?_, ?_, ?_⟩ <;> rw [hmain]

/-- Witness for C10 at the manual example state with auto-update on. -/
theorem c10_manual_submit_while_auto_witness :
    handleSubmit exCfgAuto exStateManual (some [exFrame]) (0, 1000000) 0 5 none
        (Except.ok ⟨"resp", none⟩) =
      ({ exStateManual with pendingAutoPrompt := exStateManual.prompt, prompt := "" },
        false) :=
  (c10_manual_submit_while_auto exCfgAuto exStateManual (some [exFrame]) (0, 1000000)
    0 5 none (Except.ok ⟨"resp", none⟩) rfl).1

/-- C3 counterexample: an auto-update cycle whose model call succeeds but
whose forwarding step fails clears the queued ad-hoc prompt (it was
cleared before the forward call), while the watermark stays unchanged —
so the failure path does not preserve the pending prompt. -/
theorem c3_counterexample :
    exStatePending.pendingAutoPrompt = "keep me" ∧
    (autoUpdateComplete exCfgFwd exStatePending 1200000 5 (Except.ok ⟨"[1]", none⟩)
        (Except.error "boom")).pendingAutoPrompt = "" ∧
    (autoUpdateComplete exCfgFwd exStatePending 1200000 5 (Except.ok ⟨"[1]", none⟩)
        (Except.error "boom")).lastSentTimestamp = exStatePending.lastSentTimestamp ∧
    (autoUpdateComplete exCfgFwd exStatePending 1200000 5 (Except.ok ⟨"[1]", none⟩)
        (Except.error "boom")).error = some "Auto-update failed: boom" := by
  refine ⟨rfl, by decide, by decide, by decide⟩

/-- C3 (amended): on any failure the watermark is not advanced; when the
model call itself fails the queued ad-hoc prompt is also untouched (a
failure during forwarding happens after the prompt was cleared); and
because the diff depends only on the data and the unchanged watermark,
the next qualifying refresh recomputes the identical delta batch. -/
theorem c3_failure_path (cfg : PanelConfig) (s : PanelState) (ts nowMs : Int)
    (e : String) (net : Except String Unit) (resp : ChatResponseData)
    (data : Option (List GFrame)) (ids : List String) (s' : PanelState) :
    ((autoUpdateComplete cfg s ts nowMs (Except.error e) net).lastSentTimestamp =
        s.lastSentTimestamp ∧
      (autoUpdateComplete cfg s ts nowMs (Except.error e) net).pendingAutoPrompt =
        s.pendingAutoPrompt ∧
      (autoUpdateComplete cfg s ts nowMs (Except.error e) net).isProcessing = false) ∧
    (cfg.isAutoForwardingEnabled = true → truthyOS cfg.controlEndpointUrl = true →
      ∀ e2, forwardOutcome cfg resp.response net = Except.error e2 →
        (autoUpdateComplete cfg s ts nowMs (Except.ok resp) net).lastSentTimestamp =
          s.lastSentTimestamp) ∧
    (s'.lastSentTimestamp = s.lastSentTimestamp →
      processIncrementalData data ids s'.lastSentTimestamp =
        processIncrementalData data ids s.lastSentTimestamp) := by
  refine ⟨⟨rfl, rfl, rfl⟩, ?_, fun h => by rw [h]⟩
  intro hfwd hurl e2 hfo
  unfold autoUpdateComplete
  dsimp only
  rw [if_pos ⟨hfwd, hurl⟩, hfo]
  dsimp only
  split <;> rfl

/-- Witness for the amended C3 theorem at the forward-failure example. -/
theorem c3_failure_path_witness :
    (autoUpdateComplete exCfgFwd exStatePending 1200000 5 (Except.ok ⟨"[1]", none⟩)
        (Except.error "boom")).lastSentTimestamp = exStatePending.lastSentTimestamp :=
  (c3_failure_path exCfgFwd exStatePending 1200000 5 "x" (Except.error "boom")
    ⟨"[1]", none⟩ (some [exFrame]) ["temp_A"] exStatePending).2.1 rfl rfl "boom" rfl

/-- C7 counterexample: a manual send over a window that lies before the
stored watermark overwrites the watermark with the window's (smaller)
latest timestamp — the stored watermark decreases without any reset. -/
theorem c7_counterexample :
    exStateManual.lastSentTimestamp = some 1200000 ∧
    (handleSubmit exCfgManual exStateManual (some [exEarlyFrame]) (0, 1000000) 0 5 none
        (Except.ok ⟨"resp", none⟩)).1.lastSentTimestamp = some 500000 ∧
    (500000 : Int) < 1200000 := by
  refine ⟨rfl, by decide, by decide⟩

/-- C7 (amended): the auto-update commit never decreases the watermark —
a fired tick's committed timestamp strictly exceeds the previous
watermark, and a fully successful cycle stores exactly that timestamp.
The manual-send commit, by contrast, overwrites the watermark with the
current window's latest timestamp, which can be smaller (see the
counterexample). -/
theorem c7_auto_commit_monotone (cfg : PanelConfig) (s : PanelState)
    (data : Option (List GFrame)) (b : Batch) (ts w nowMs : Int)
    (resp : ChatResponseData) (net : Except String Unit)
    (hw : s.lastSentTimestamp = some w)
    (hf : (autoUpdateTick cfg s data).2 = some (b, ts)) :
    w < ts ∧
    (cfg.isAutoForwardingEnabled = false →
      (autoUpdateComplete cfg ((autoUpdateTick cfg s data).1) ts nowMs
        (Except.ok resp) net).lastSentTimestamp = some ts) := by
  constructor
  · unfold autoUpdateTick at hf
    split at hf
    · cases hf
    · dsimp only at hf
      split at hf
      · cases hf
      · rename_i nl hnl
        split at hf
        · cases data with
          | none =>
            rw [hw] at hnl
            simp [processIncrementalData] at hnl
          | some frames =>
            rw [hw] at hnl
            have := processIncrementalData_latest hnl
            have hts : nl = ts := by
              injection hf with hf'
              exact (congrArg Prod.snd hf')
            rw [hts] at this
            simpa [passesSince] using this
        · cases hf
  · intro hfwd
    unfold autoUpdateComplete
    dsimp only
    rw [if_neg (by simp [hfwd])]

/-- Witness for the amended C7 theorem at the example firing tick. -/
theorem c7_auto_commit_monotone_witness :
    (1000000 : Int) < 1200000 ∧
    (exCfgAuto.isAutoForwardingEnabled = false →
      (autoUpdateComplete exCfgAuto
        ((autoUpdateTick exCfgAuto exStateIdle (some [exFrame])).1) 1200000 5
        (Except.ok ⟨"resp", none⟩) (Except.ok ())).lastSentTimestamp = some 1200000) :=
  c7_auto_commit_monotone exCfgAuto exStateIdle (some [exFrame])
    [("1970-01-01 00:18:20", [("temp_A", JsVal.num 2)]),
     ("1970-01-01 00:20:00", [("temp_A", JsVal.num 3)])] 1200000 1000000 5
    ⟨"resp", none⟩ (Except.ok ()) rfl (by decide)
